import Mathlib

/-!
Verification of the dual-source OCR field-extraction engine
(`app/utils.py`, `app/core.py`) against its natural-language specification.

Strings are modelled as `List Char` internally, with `String` wrappers named
after the Python functions they embed.  Python regular expressions are
hand-compiled into deterministic scanners; `\s` and `str.split()` whitespace
is the CPython whitespace set, and `\w` is modelled as ASCII alphanumerics,
underscore, and the Arabic Unicode block U+0600–U+06FF (faithful for every
character the sanitizer can let through except rare Arabic punctuation
marks, which no claim input contains).
-/

namespace EgyIdOcr

/-- CPython whitespace (both `str.split()` and regex `\s`). -/
def isPySpace (c : Char) : Bool :=
  let n := c.toNat
  n = 32 || (9 ≤ n && n ≤ 13) || (28 ≤ n && n ≤ 31) || n = 0x85 || n = 0xA0 ||
  n = 0x1680 || (0x2000 ≤ n && n ≤ 0x200A) || n = 0x2028 || n = 0x2029 ||
  n = 0x202F || n = 0x205F || n = 0x3000

/-- ASCII digits `0`–`9`. -/
def isWesternDigit (c : Char) : Bool := 48 ≤ c.toNat && c.toNat ≤ 57

/-- Arabic-indic digits `٠`–`٩` (U+0660–U+0669). -/
def isArabicIndicDigit (c : Char) : Bool := 0x660 ≤ c.toNat && c.toNat ≤ 0x669

/-- The character class `[0-9٠-٩]` used throughout `utils.py`. -/
def isAnyDigit (c : Char) : Bool := isWesternDigit c || isArabicIndicDigit c

/-- The Arabic block `[؀-ۿ]`; `count_arabic_letters` counts exactly these. -/
def isArabicBlock (c : Char) : Bool := 0x600 ≤ c.toNat && c.toNat ≤ 0x6FF

/-- `[a-zA-Z]`. -/
def isEnglishLetter (c : Char) : Bool :=
  (65 ≤ c.toNat && c.toNat ≤ 90) || (97 ≤ c.toNat && c.toNat ≤ 122)

/-- Model of regex `\w` on the character repertoire in play. -/
def isWordChar (c : Char) : Bool :=
  isWesternDigit c || isEnglishLetter c || c = '_' || isArabicBlock c

/-- `string.punctuation`: ASCII 33–47, 58–64, 91–96, 123–126. -/
def isAsciiPunct (c : Char) : Bool :=
  let n := c.toNat
  (33 ≤ n && n ≤ 47) || (58 ≤ n && n ≤ 64) || (91 ≤ n && n ≤ 96) || (123 ≤ n && n ≤ 126)

/-- `to_western_digits` character substitution ٠-٩ → 0-9. -/
def toWesternChar (c : Char) : Char :=
  if isArabicIndicDigit c then Char.ofNat (c.toNat - 0x660 + 48) else c

/-- `to_arabic_digits` character substitution 0-9 → ٠-٩. -/
def toArabicChar (c : Char) : Char :=
  if isWesternDigit c then Char.ofNat (c.toNat - 48 + 0x660) else c

def toWesternL (l : List Char) : List Char := l.map toWesternChar

def toArabicL (l : List Char) : List Char := l.map toArabicChar

/-- `to_western_digits(sval)`. -/
def to_western_digits (s : String) : String := ⟨toWesternL s.data⟩

/-- `to_arabic_digits(sval)`. -/
def to_arabic_digits (s : String) : String := ⟨toArabicL s.data⟩

/-- `count_arabic_letters(sval)`: number of U+0600–U+06FF characters. -/
def countArabicL (l : List Char) : Nat := (l.filter (fun c => isArabicBlock c)).length

def count_arabic_letters (s : String) : Nat := countArabicL s.data

/-- `str.split()` (and `' '.join(s.split())` tokenisation): maximal runs of
non-whitespace characters, empties dropped. -/
def splitWsAux : List Char → List Char → List (List Char)
  | [], acc => if acc.isEmpty then [] else [acc.reverse]
  | c :: cs, acc =>
    if isPySpace c then
      (if acc.isEmpty then splitWsAux cs [] else acc.reverse :: splitWsAux cs [])
    else splitWsAux cs (c :: acc)

def splitWords (l : List Char) : List (List Char) := splitWsAux l []

/-- `' '.join(ws)`. -/
def joinWords : List (List Char) → List Char
  | [] => []
  | [w] => w
  | w :: ws => w ++ ' ' :: joinWords ws

/-- `' '.join(l.split())`: whitespace collapse. -/
def collapseWs (l : List Char) : List Char := joinWords (splitWords l)

/-- First pass of `sanitize_addr`: `replace('؟',' ')…replace('<',' ')` (single chars). -/
def sanStep1 (c : Char) : Char := if c = '؟' || c = '?' || c = '>' || c = '<' then ' ' else c

/-- Second pass: `re.sub(r'[a-zA-Z]', ' ', ·)`. -/
def sanStep2 (c : Char) : Char := if isEnglishLetter c then ' ' else c

/-- Character class kept by `re.sub(r'[^؀-ۿ0-9٠-٩\s\-ـ]', ' ', ·)`. -/
def sanitizeKeep (c : Char) : Bool :=
  isArabicBlock c || isWesternDigit c || isArabicIndicDigit c || isPySpace c ||
  c = '-' || c = 'ـ'

def sanStep3 (c : Char) : Char := if sanitizeKeep c then c else ' '

def sanitizeL (l : List Char) : List Char :=
  collapseWs (((l.map sanStep1).map sanStep2).map sanStep3)

/-- `sanitize_addr(sval)` from `app/utils.py`. -/
def sanitize_addr (s : String) : String := ⟨sanitizeL s.data⟩

/- ### Facts about the word splitter, used by the idempotence proofs. -/

theorem mem_splitWsAux_ne_nil : ∀ (l acc : List Char) (w : List Char),
    w ∈ splitWsAux l acc → w ≠ [] := by
  intro l
  induction l with
  | nil =>
    intro acc w hw
    simp only [splitWsAux] at hw
    by_cases h : acc.isEmpty
    · simp [h] at hw
    · simp [h] at hw
      subst hw
      simpa [List.isEmpty_iff] using h
  | cons c cs ih =>
    intro acc w hw
    simp only [splitWsAux] at hw
    by_cases hsp : isPySpace c
    · simp only [hsp, if_true] at hw
      by_cases h : acc.isEmpty
      · simp only [h, if_true] at hw
        exact ih [] w hw
      · rw [if_neg h, List.mem_cons] at hw
        rcases hw with h1 | h2
        · subst h1
          simpa [List.isEmpty_iff] using h
        · exact ih [] w h2
    · simp only [hsp, if_false] at hw
      exact ih (c :: acc) w hw

theorem mem_splitWsAux_chars : ∀ (l acc : List Char) (w : List Char) (c : Char),
    (∀ a ∈ acc, isPySpace a = false) →
    w ∈ splitWsAux l acc → c ∈ w → isPySpace c = false ∧ (c ∈ l ∨ c ∈ acc) := by
  intro l
  induction l with
  | nil =>
    intro acc w c hacc hw hc
    simp only [splitWsAux] at hw
    by_cases h : acc.isEmpty
    · simp [h] at hw
    · simp [h] at hw
      subst hw
      exact ⟨hacc c (by simpa using hc), Or.inr (by simpa using hc)⟩
  | cons b cs ih =>
    intro acc w c hacc hw hc
    simp only [splitWsAux] at hw
    by_cases hsp : isPySpace b
    · simp only [hsp, if_true] at hw
      by_cases h : acc.isEmpty
      · simp only [h, if_true] at hw
        have := ih [] w c (by simp) hw hc
        refine ⟨this.1, ?_⟩
        rcases this.2 with h1 | h1
        · exact Or.inl (List.mem_cons_of_mem b h1)
        · exact (List.not_mem_nil c h1).elim
      · rw [if_neg h, List.mem_cons] at hw
        rcases hw with h1 | h2
        · subst h1
          exact ⟨hacc c (by simpa using hc), Or.inr (by simpa using hc)⟩
        · have := ih [] w c (by simp) h2 hc
          refine ⟨this.1, ?_⟩
          rcases this.2 with h1 | h1
          · exact Or.inl (List.mem_cons_of_mem b h1)
          · exact (List.not_mem_nil c h1).elim
    · simp only [hsp, if_false] at hw
      have := ih (b :: acc) w c ?_ hw hc
      · refine ⟨this.1, ?_⟩
        rcases this.2 with h1 | h1
        · exact Or.inl (by simp [h1])
        · rcases List.mem_cons.mp h1 with h2 | h2
          · exact Or.inl (by simp [h2])
          · exact Or.inr h2
      · intro a ha
        rcases List.mem_cons.mp ha with h2 | h2
        · subst h2
          simpa using hsp
        · exact hacc a h2

theorem splitWsAux_append_word : ∀ (w cs acc : List Char),
    (∀ c ∈ w, isPySpace c = false) →
    splitWsAux (w ++ cs) acc = splitWsAux cs (w.reverse ++ acc) := by
  intro w
  induction w with
  | nil => intro cs acc _; simp
  | cons c w' ih =>
    intro cs acc hw
    have hc : isPySpace c = false := hw c (by simp)
    simp only [List.cons_append, splitWsAux, hc, Bool.false_eq_true, if_false,
      List.append_eq]
    rw [ih cs (c :: acc) (fun a ha => hw a (by simp [ha]))]
    simp

theorem splitWords_joinWords : ∀ ws : List (List Char),
    (∀ w ∈ ws, w ≠ [] ∧ ∀ c ∈ w, isPySpace c = false) →
    splitWords (joinWords ws) = ws := by
  intro ws
  induction ws with
  | nil => intro _; simp [splitWords, joinWords, splitWsAux]
  | cons w ws' ih =>
    intro h
    have hw := h w (by simp)
    cases ws' with
    | nil =>
      show splitWsAux (joinWords [w]) [] = [w]
      simp only [joinWords]
      have := splitWsAux_append_word w [] [] hw.2
      simp only [List.append_nil] at this
      rw [this]
      simp [splitWsAux, List.isEmpty_iff, hw.1]
    | cons w2 ws'' =>
      show splitWsAux (joinWords (w :: w2 :: ws'')) [] = w :: w2 :: ws''
      simp only [joinWords]
      rw [splitWsAux_append_word w (' ' :: joinWords (w2 :: ws'')) [] hw.2]
      have hsp : isPySpace ' ' = true := by decide
      simp only [splitWsAux, hsp, if_true, List.append_nil]
      have hne : (w.reverse).isEmpty = false := by
        simp [List.isEmpty_iff, hw.1]
      simp only [hne, if_false, List.reverse_reverse]
      have := ih (fun u hu => h u (by simp [hu]))
      simpa [splitWords, joinWords] using this

theorem map_id_of_fixed {f : Char → Char} : ∀ l : List Char,
    (∀ c ∈ l, f c = c) → l.map f = l := by
  intro l
  induction l with
  | nil => intro _; rfl
  | cons c cs ih =>
    intro h
    simp only [List.map_cons, h c (by simp), ih (fun a ha => h a (by simp [ha]))]

theorem mem_joinWords : ∀ (ws : List (List Char)) (c : Char),
    c ∈ joinWords ws → c = ' ' ∨ ∃ w ∈ ws, c ∈ w := by
  intro ws
  induction ws with
  | nil => intro c hc; simp [joinWords] at hc
  | cons w ws' ih =>
    intro c hc
    cases ws' with
    | nil =>
      simp only [joinWords] at hc
      exact Or.inr ⟨w, by simp, hc⟩
    | cons w2 ws'' =>
      simp only [joinWords, List.mem_append, List.mem_cons] at hc
      rcases hc with h1 | h2 | h3
      · exact Or.inr ⟨w, by simp, h1⟩
      · exact Or.inl h2
      · rcases ih c (by simpa [joinWords] using h3) with h4 | ⟨u, hu, hcu⟩
        · exact Or.inl h4
        · exact Or.inr ⟨u, by simp [hu], hcu⟩

theorem sanChar_space_step : sanStep3 (sanStep2 ' ') = ' ' := by decide

theorem sanChar_fixed (d : Char)
    (hns : isPySpace (sanStep3 (sanStep2 (sanStep1 d))) = false) :
    sanStep1 (sanStep3 (sanStep2 (sanStep1 d))) = sanStep3 (sanStep2 (sanStep1 d)) ∧
    sanStep2 (sanStep3 (sanStep2 (sanStep1 d))) = sanStep3 (sanStep2 (sanStep1 d)) ∧
    sanStep3 (sanStep3 (sanStep2 (sanStep1 d))) = sanStep3 (sanStep2 (sanStep1 d)) := by
  by_cases hA : (d = '؟' || d = '?' || d = '>' || d = '<') = true
  · exfalso
    have h1 : sanStep1 d = ' ' := by simp only [sanStep1, hA, if_true]
    rw [h1, sanChar_space_step] at hns
    exact absurd hns (by decide)
  · have h1 : sanStep1 d = d := by
      simp only [sanStep1]
      rw [if_neg hA]
    rw [h1] at hns ⊢
    by_cases hB : isEnglishLetter d = true
    · exfalso
      have h2 : sanStep2 d = ' ' := by simp only [sanStep2, hB, if_true]
      rw [h2] at hns
      have h3 : sanStep3 ' ' = ' ' := by decide
      rw [h3] at hns
      exact absurd hns (by decide)
    · have h2 : sanStep2 d = d := by
        simp only [sanStep2]
        rw [if_neg hB]
      rw [h2] at hns ⊢
      by_cases hk : sanitizeKeep d = true
      · have h3 : sanStep3 d = d := by simp only [sanStep3, hk, if_true]
        rw [h3] at hns ⊢
        refine ⟨?_, ?_, h3⟩
        · simp only [sanStep1]
          rw [if_neg hA]
        · simp only [sanStep2]
          rw [if_neg hB]
      · exfalso
        have h3 : sanStep3 d = ' ' := by
          simp only [sanStep3]
          rw [if_neg hk]
        rw [h3] at hns
        exact absurd hns (by decide)

theorem mem_mapped_fixed (l : List Char) (c : Char)
    (hc : c ∈ ((l.map sanStep1).map sanStep2).map sanStep3)
    (hns : isPySpace c = false) :
    sanStep1 c = c ∧ sanStep2 c = c ∧ sanStep3 c = c := by
  rcases List.mem_map.mp hc with ⟨a, ha, hac⟩
  rcases List.mem_map.mp ha with ⟨b, hb, hba⟩
  rcases List.mem_map.mp hb with ⟨d, _, hdb⟩
  subst hdb
  subst hba
  subst hac
  exact sanChar_fixed d hns

theorem sanStep_fixed_of_mem_sanitizeL (l : List Char) (c : Char) (hc : c ∈ sanitizeL l) :
    sanStep1 c = c ∧ sanStep2 c = c ∧ sanStep3 c = c := by
  rcases mem_joinWords _ c hc with hsp | ⟨w, hw, hcw⟩
  · subst hsp
    exact ⟨by decide, by decide, by decide⟩
  · have hmem := mem_splitWsAux_chars _ [] w c (by simp) hw hcw
    have hml : c ∈ ((l.map sanStep1).map sanStep2).map sanStep3 := by
      rcases hmem.2 with h | h
      · exact h
      · exact (List.not_mem_nil c h).elim
    exact mem_mapped_fixed l c hml hmem.1

theorem collapseWs_collapseWs (l : List Char) : collapseWs (collapseWs l) = collapseWs l := by
  show joinWords (splitWords (joinWords (splitWords l))) = joinWords (splitWords l)
  rw [splitWords_joinWords]
  intro w hw
  exact ⟨mem_splitWsAux_ne_nil _ [] w hw,
    fun c hc => (mem_splitWsAux_chars _ [] w c (by simp) hw hc).1⟩

theorem sanitizeL_idem (l : List Char) : sanitizeL (sanitizeL l) = sanitizeL l := by
  have hfix := sanStep_fixed_of_mem_sanitizeL l
  have h1 : (sanitizeL l).map sanStep1 = sanitizeL l :=
    map_id_of_fixed _ (fun c hc => (hfix c hc).1)
  have h2 : (sanitizeL l).map sanStep2 = sanitizeL l :=
    map_id_of_fixed _ (fun c hc => (hfix c hc).2.1)
  have h3 : (sanitizeL l).map sanStep3 = sanitizeL l :=
    map_id_of_fixed _ (fun c hc => (hfix c hc).2.2)
  show collapseWs ((((sanitizeL l).map sanStep1).map sanStep2).map sanStep3) = sanitizeL l
  rw [h1, h2, h3]
  show collapseWs (collapseWs _) = _
  rw [collapseWs_collapseWs]
  rfl

/-- C6: address sanitization is idempotent — for every string `s`,
`sanitize_addr(sanitize_addr(s)) = sanitize_addr(s)`. -/
theorem C6_sanitize_addr_idempotent (s : String) :
    sanitize_addr (sanitize_addr s) = sanitize_addr s := by
  show (⟨sanitizeL (sanitizeL s.data)⟩ : String) = ⟨sanitizeL s.data⟩
  rw [sanitizeL_idem]

/- ### `best_number` (utils.py 172–184) and the two-digit substitution applied
to its result at the call site (choose_address 220–225). -/

/-- Stable insertion for `sorted(candidates, key=len, reverse=True)`:
an element is placed before every later element of equal or smaller length. -/
def insLenDesc (x : String) : List String → List String
  | [] => [x]
  | y :: ys => if y.length ≤ x.length then x :: y :: ys else y :: insLenDesc x ys

def pySortLenDesc : List String → List String
  | [] => []
  | x :: xs => insLenDesc x (pySortLenDesc xs)

/-- `best_number(num_t, num_e, all_digits_t, all_digits_e)` from `app/utils.py`. -/
def best_number (numT numE : String) (allT allE : List String) : String :=
  let candidates := [numT, numE].filter (fun x => x ≠ "")
  if candidates.isEmpty then ""
  else
    let best := (pySortLenDesc candidates).headD ""
    if 2 ≤ best.length then best
    else
      match (allT ++ allE).filter (fun d => d.length = 1 ∧ d ≠ best) with
      | s :: _ => best ++ s
      | [] => best

/-- The winner post-processing of `choose_address` (utils.py 222–225): a
still-single-digit winner is replaced by the last 2-digit run, if any. -/
def bestNumberWithTwos (numT numE : String) (allT allE : List String) : String :=
  let best := best_number numT numE allT allE
  if best.length = 1 then
    match ((allT ++ allE).filter (fun d => d.length = 2)).getLast? with
    | some t2 => t2
    | none => best
  else best

/-- The spec's `bestNumber` reconciliation rule (§4.3), stated in the spec's
own terms, for comparison with the source implementation. -/
def specBestNumber (numT numE : String) (allT allE : List String) : String :=
  if numT = "" ∧ numE = "" then ""
  else
    let w := if numT = "" then numE else if numE = "" then numT
             else if numT.length < numE.length then numE else numT
    if 2 ≤ w.length then w
    else
      match (allT ++ allE).filter (fun d => d.length = 1 ∧ d ≠ w) with
      | s :: _ => w ++ s
      | [] =>
        match ((allT ++ allE).filter (fun d => d.length = 2)).getLast? with
        | some t2 => t2
        | none => w

theorem one_le_length_of_ne_empty (s : String) (h : s ≠ "") : 1 ≤ s.length := by
  cases s with
  | mk data =>
    cases data with
    | nil => exact absurd rfl h
    | cons c cs => simp [String.length]

theorem bestNumberWithTwos_single (numT numE : String) (allT allE : List String)
    (w : String) (hw : w ≠ "") (hL : ¬ 2 ≤ w.length)
    (hbn : best_number numT numE allT allE =
      (match (allT ++ allE).filter (fun d => d.length = 1 ∧ d ≠ w) with
       | s :: _ => w ++ s
       | [] => w)) :
    bestNumberWithTwos numT numE allT allE =
      (match (allT ++ allE).filter (fun d => d.length = 1 ∧ d ≠ w) with
       | s :: _ => w ++ s
       | [] =>
         match ((allT ++ allE).filter (fun d => d.length = 2)).getLast? with
         | some t2 => t2
         | none => w) := by
  have hw1 : w.length = 1 := by
    have := one_le_length_of_ne_empty w hw
    omega
  unfold bestNumberWithTwos
  rw [hbn]
  cases hs : (allT ++ allE).filter (fun d => d.length = 1 ∧ d ≠ w) with
  | cons s rest =>
    have hs1 : s.length = 1 := by
      have : s ∈ (allT ++ allE).filter (fun d => d.length = 1 ∧ d ≠ w) := by
        rw [hs]; simp
      have := List.of_mem_filter this
      simp only [decide_eq_true_eq] at this
      exact this.1
    have : (w ++ s).length = 2 := by
      rw [String.length_append]
      omega
    simp [this]
  | nil =>
    simp [hw1]

/-- C5: the best-number reconciliation (`best_number` plus the 2-digit
substitution at its call site) behaves exactly as the spec's `bestNumber`
rule: longer non-empty candidate wins, a 1-digit winner is extended with the
first other 1-digit run, and failing that the most recent 2-digit run is
substituted. -/
theorem C5_best_number_matches_spec (numT numE : String) (allT allE : List String) :
    bestNumberWithTwos numT numE allT allE = specBestNumber numT numE allT allE := by
  by_cases hT : numT = ""
  · by_cases hE : numE = ""
    · subst hT; subst hE
      rfl
    · have hcand : [numT, numE].filter (fun x => x ≠ "") = [numE] := by
        subst hT; simp [hE]
      have hbn : best_number numT numE allT allE =
          (if 2 ≤ numE.length then numE else
            match (allT ++ allE).filter (fun d => d.length = 1 ∧ d ≠ numE) with
            | s :: _ => numE ++ s
            | [] => numE) := by
        unfold best_number
        rw [hcand]
        simp [pySortLenDesc, insLenDesc]
      have hspec : specBestNumber numT numE allT allE =
          (if 2 ≤ numE.length then numE else
            match (allT ++ allE).filter (fun d => d.length = 1 ∧ d ≠ numE) with
            | s :: _ => numE ++ s
            | [] =>
              match ((allT ++ allE).filter (fun d => d.length = 2)).getLast? with
              | some t2 => t2
              | none => numE) := by
        unfold specBestNumber
        subst hT
        simp [hE]
      by_cases hL : 2 ≤ numE.length
      · rw [hspec]
        unfold bestNumberWithTwos
        rw [hbn]
        simp only [hL, if_true]
        have : ¬ numE.length = 1 := by omega
        simp [this]
      · rw [hspec]
        simp only [hL, if_false]
        rw [if_neg hL] at hbn
        exact bestNumberWithTwos_single numT numE allT allE numE hE hL hbn
  · by_cases hE : numE = ""
    · have hcand : [numT, numE].filter (fun x => x ≠ "") = [numT] := by
        subst hE; simp [hT]
      have hbn : best_number numT numE allT allE =
          (if 2 ≤ numT.length then numT else
            match (allT ++ allE).filter (fun d => d.length = 1 ∧ d ≠ numT) with
            | s :: _ => numT ++ s
            | [] => numT) := by
        unfold best_number
        rw [hcand]
        simp [pySortLenDesc, insLenDesc]
      have hspec : specBestNumber numT numE allT allE =
          (if 2 ≤ numT.length then numT else
            match (allT ++ allE).filter (fun d => d.length = 1 ∧ d ≠ numT) with
            | s :: _ => numT ++ s
            | [] =>
              match ((allT ++ allE).filter (fun d => d.length = 2)).getLast? with
              | some t2 => t2
              | none => numT) := by
        unfold specBestNumber
        subst hE
        simp [hT]
      by_cases hL : 2 ≤ numT.length
      · rw [hspec]
        unfold bestNumberWithTwos
        rw [hbn]
        simp only [hL, if_true]
        have : ¬ numT.length = 1 := by omega
        simp [this]
      · rw [hspec]
        simp only [hL, if_false]
        rw [if_neg hL] at hbn
        exact bestNumberWithTwos_single numT numE allT allE numT hT hL hbn
    · have hcand : [numT, numE].filter (fun x => x ≠ "") = [numT, numE] := by
        simp [hT, hE]
      have hsort : pySortLenDesc [numT, numE] =
          (if numE.length ≤ numT.length then [numT, numE] else [numE, numT]) := by
        simp [pySortLenDesc, insLenDesc]
      have hwdef : ((pySortLenDesc [numT, numE]).headD "") =
          (if numT.length < numE.length then numE else numT) := by
        rw [hsort]
        by_cases h : numE.length ≤ numT.length
        · rw [if_pos h, if_neg (by omega)]
          rfl
        · rw [if_neg h, if_pos (by omega)]
          rfl
      set w := if numT.length < numE.length then numE else numT with hwdef2
      have hwne : w ≠ "" := by
        rw [hwdef2]
        by_cases h : numT.length < numE.length
        · simpa [h] using hE
        · simpa [h] using hT
      have hbn : best_number numT numE allT allE =
          (if 2 ≤ w.length then w else
            match (allT ++ allE).filter (fun d => d.length = 1 ∧ d ≠ w) with
            | s :: _ => w ++ s
            | [] => w) := by
        unfold best_number
        rw [hcand]
        simp only [List.isEmpty_cons, Bool.false_eq_true, if_false]
        rw [hwdef]
      have hspec : specBestNumber numT numE allT allE =
          (if 2 ≤ w.length then w else
            match (allT ++ allE).filter (fun d => d.length = 1 ∧ d ≠ w) with
            | s :: _ => w ++ s
            | [] =>
              match ((allT ++ allE).filter (fun d => d.length = 2)).getLast? with
              | some t2 => t2
              | none => w) := by
        unfold specBestNumber
        rw [if_neg (by exact fun h => hT h.1), if_neg hT, if_neg hE]
      by_cases hL : 2 ≤ w.length
      · rw [hspec]
        unfold bestNumberWithTwos
        rw [hbn]
        simp only [hL, if_true]
        have : ¬ w.length = 1 := by omega
        simp [this]
      · rw [hspec]
        simp only [hL, if_false]
        rw [if_neg hL] at hbn
        exact bestNumberWithTwos_single numT numE allT allE w hwne hL hbn

/- ### Identifier cleaner (`clean_id`) and birth-date deriver
(`extract_birthdate_from_id`). -/

/-- Maximal runs of characters satisfying `p` (regex `findall` of `X+`). -/
def runsOfAux (p : Char → Bool) : List Char → List Char → List (List Char)
  | [], acc => if acc.isEmpty then [] else [acc.reverse]
  | c :: cs, acc =>
    if p c then runsOfAux p cs (c :: acc)
    else (if acc.isEmpty then runsOfAux p cs [] else acc.reverse :: runsOfAux p cs [])

def runsOf (p : Char → Bool) (l : List Char) : List (List Char) := runsOfAux p l []

/-- The 28 Arabic letters listed in `clean_id`. -/
def arLetters : List Char :=
  ['ا', 'ب', 'ت', 'ث', 'ج', 'ح', 'خ', 'د', 'ذ', 'ر', 'ز', 'س', 'ش', 'ص',
   'ض', 'ط', 'ظ', 'ع', 'غ', 'ف', 'ق', 'ك', 'ل', 'م', 'ن', 'ه', 'و', 'ي']

/-- The character-removal loop of `clean_id`: for each character of the
original string in `arLetters` or `string.punctuation`, all its occurrences
are removed; the net effect is this filter. -/
def stripArPun (l : List Char) : List Char :=
  l.filter (fun c => ¬(c ∈ arLetters ∨ isAsciiPunct c = true))

/-- `int(...)` on a (non-empty) string of Western digits. -/
def natOfDigits (l : List Char) : Nat := l.foldl (fun n c => 10 * n + (c.toNat - 48)) 0

/-- `clean_id(id_val)` from `app/utils.py`: locate Arabic-indic digit runs,
reverse the run list, concatenate, translate to Western and parse; fall back
to the digits left after stripping non-digits, else 0. -/
def clean_id (idVal : String) : Nat :=
  let sVal := stripArPun idVal.data
  let ms := runsOf isArabicIndicDigit sVal
  let concatenated := (ms.reverse).flatten
  if ¬concatenated.isEmpty then natOfDigits (toWesternL concatenated)
  else
    let ds := sVal.filter isAnyDigit
    if ds.isEmpty then 0 else natOfDigits (toWesternL ds)

/-- Gregorian leap year, as `datetime` uses it. -/
def isLeapYear (y : Nat) : Bool := (y % 4 = 0 && y % 100 ≠ 0) || y % 400 = 0

def daysInMonth (y m : Nat) : Nat :=
  if m = 2 then (if isLeapYear y then 29 else 28)
  else if m = 4 || m = 6 || m = 9 || m = 11 then 30 else 31

/-- Success condition of the `datetime(year, month, day)` constructor (the
year range check is omitted: every year derived below lies in 1900–2099). -/
def validDate (y m d : Nat) : Bool := 1 ≤ m && m ≤ 12 && 1 ≤ d && d ≤ daysInMonth y m

def pad2 (n : Nat) : String := if n < 10 then "0" ++ toString n else toString n

/-- `dt.strftime('%Y-%m-%d')` for four-digit years. -/
def isoFormat (y m d : Nat) : String := toString y ++ "-" ++ pad2 m ++ "-" ++ pad2 d

/-- `extract_birthdate_from_id(id_value)` from `app/utils.py`; `currentYY`
stands for `datetime.now().year % 100`. -/
def extract_birthdate_from_id (currentYY : Nat) (idValue : String) : String :=
  let digits := (toWesternL idValue.data).filter isAnyDigit
  if digits.length < 7 then "0"
  else if digits.headD ' ' = '2' || digits.headD ' ' = '3' then
    let century := if digits.headD ' ' = '2' then 1900 else 2000
    let yy := natOfDigits ((digits.drop 1).take 2)
    let mm := natOfDigits ((digits.drop 3).take 2)
    let dd := natOfDigits ((digits.drop 5).take 2)
    if validDate (century + yy) mm dd then isoFormat (century + yy) mm dd else "0"
  else if 6 ≤ digits.length then
    let yy := natOfDigits (digits.take 2)
    let mm := natOfDigits ((digits.drop 2).take 2)
    let dd := natOfDigits ((digits.drop 4).take 2)
    let century := if yy ≤ currentYY then 2000 else 1900
    if validDate (century + yy) mm dd then isoFormat (century + yy) mm dd else "0"
  else "0"

/-- Modelled on the spec's legacy 6-digit positional rule (§4.8), as a
function of the digit string, for comparison with the source behaviour. -/
def specLegacyBirthdate (currentYY : Nat) (digits : List Char) : String :=
  let yy := natOfDigits (digits.take 2)
  let mm := natOfDigits ((digits.drop 2).take 2)
  let dd := natOfDigits ((digits.drop 4).take 2)
  let century := if yy ≤ currentYY then 2000 else 1900
  if validDate (century + yy) mm dd then isoFormat (century + yy) mm dd else "0"

/-- C1 counterexample: the deriver rejects every identifier with fewer than
7 digits, so the claimed 6-digit legacy interpretation never fires —
`extract_birthdate_from_id("850101")` is `"0"`, not `"1985-01-01"`
(current two-digit year 26, i.e. current year 2026 ≥ 2000). -/
theorem C1_counterexample :
    extract_birthdate_from_id 26 "850101" = "0" ∧
    ("0" : String) ≠ "1985-01-01" := by
  exact ⟨by decide, by decide⟩

/-- C1 amended: the legacy year/month/day interpretation applies exactly to
identifiers whose digit string has at least 7 digits and whose first digit is
neither '2' nor '3'; a 6-digit string is rejected with "0". -/
theorem C1_amended_legacy_branch (cy : Nat) (s : String) :
    (((toWesternL s.data).filter isAnyDigit).length = 6 →
      extract_birthdate_from_id cy s = "0") ∧
    (7 ≤ ((toWesternL s.data).filter isAnyDigit).length →
      ((toWesternL s.data).filter isAnyDigit).headD ' ' ≠ '2' →
      ((toWesternL s.data).filter isAnyDigit).headD ' ' ≠ '3' →
      extract_birthdate_from_id cy s =
        specLegacyBirthdate cy ((toWesternL s.data).filter isAnyDigit)) := by
  constructor
  · intro h6
    unfold extract_birthdate_from_id
    rw [if_pos (by omega)]
  · intro h7 h2 h3
    unfold extract_birthdate_from_id
    rw [if_neg (by omega)]
    have hcond : (decide (((toWesternL s.data).filter isAnyDigit).headD ' ' = '2') ||
        decide (((toWesternL s.data).filter isAnyDigit).headD ' ' = '3')) = false := by
      rw [Bool.or_eq_false_iff]
      exact ⟨decide_eq_false h2, decide_eq_false h3⟩
    rw [if_neg (by rw [hcond]; simp)]
    rw [if_pos (by omega)]
    rfl

/-- Witness for the amended C1: "850101" (6 digits) yields "0";
"8501011" (7 digits, first digit '8') is decoded by the legacy rule,
giving "1985-01-01" in current year 2026. -/
theorem C1_amended_witness :
    extract_birthdate_from_id 26 "850101" = "0" ∧
    (extract_birthdate_from_id 26 "8501011" =
        specLegacyBirthdate 26 ((toWesternL "8501011".data).filter isAnyDigit) ∧
      specLegacyBirthdate 26 ((toWesternL "8501011".data).filter isAnyDigit) =
        "1985-01-01") :=
  ⟨(C1_amended_legacy_branch 26 "850101").1 (by decide),
   (C1_amended_legacy_branch 26 "8501011").2 (by decide) (by decide) (by decide),
   by decide⟩

theorem runsOfAux_nil (p : Char → Bool) : ∀ l : List Char,
    (∀ c ∈ l, p c = false) → runsOfAux p l [] = [] := by
  intro l
  induction l with
  | nil => intro _; rfl
  | cons c cs ih =>
    intro h
    have hc : p c = false := h c (by simp)
    simp only [runsOfAux, hc, Bool.false_eq_true, if_false, List.isEmpty_nil, if_true]
    exact ih (fun a ha => h a (by simp [ha]))

theorem arLetters_block : ∀ c ∈ arLetters, 0x600 ≤ c.toNat := by decide

theorem toWesternL_id_of_no_arabic (l : List Char)
    (h : ∀ c ∈ l, isArabicIndicDigit c = false) : toWesternL l = l := by
  unfold toWesternL
  induction l with
  | nil => rfl
  | cons c cs ih =>
    have hc : isArabicIndicDigit c = false := h c (by simp)
    simp only [List.map_cons, toWesternChar, hc, Bool.false_eq_true, if_false]
    rw [ih (fun a ha => h a (by simp [ha]))]

theorem western_not_arabic (c : Char) (h : isWesternDigit c = true) :
    isArabicIndicDigit c = false := by
  unfold isWesternDigit at h
  unfold isArabicIndicDigit
  simp only [Bool.and_eq_true, decide_eq_true_eq] at h
  simp only [Bool.and_eq_false_iff, decide_eq_false_iff_not]
  left
  omega

theorem stripArPun_filter_any (l : List Char)
    (h : ∀ c ∈ l, isArabicIndicDigit c = false) :
    (stripArPun l).filter isAnyDigit = l.filter isWesternDigit := by
  unfold stripArPun
  induction l with
  | nil => rfl
  | cons c cs ih =>
    have hc : isArabicIndicDigit c = false := h c (by simp)
    have ih' := ih (fun a ha => h a (by simp [ha]))
    by_cases hw : isWesternDigit c = true
    · have hnotar : c ∉ arLetters := by
        intro hmem
        have := arLetters_block c hmem
        unfold isWesternDigit at hw
        simp only [Bool.and_eq_true, decide_eq_true_eq] at hw
        omega
      have hnotpun : isAsciiPunct c = false := by
        unfold isWesternDigit at hw
        unfold isAsciiPunct
        simp only [Bool.and_eq_true, decide_eq_true_eq] at hw
        simp only [Bool.or_eq_false_iff, Bool.and_eq_false_iff,
          decide_eq_false_iff_not]
        omega
      have hkeep : (decide ¬(c ∈ arLetters ∨ isAsciiPunct c = true)) = true := by
        simp [hnotar, hnotpun]
      have hany : isAnyDigit c = true := by
        unfold isAnyDigit
        rw [hw]
        rfl
      simp only [List.filter_cons, hkeep, if_true, hany, hw, if_true]
      rw [ih']
    · have hwf : isWesternDigit c = false := by
        cases hx : isWesternDigit c
        · rfl
        · exact absurd hx hw
      have hany : isAnyDigit c = false := by
        unfold isAnyDigit
        rw [hwf, hc]
        rfl
      by_cases hkeep : (decide ¬(c ∈ arLetters ∨ isAsciiPunct c = true)) = true
      · simp only [List.filter_cons, hkeep, if_true, hany, hwf, Bool.false_eq_true,
          if_false]
        exact ih'
      · have hkeep' : (decide ¬(c ∈ arLetters ∨ isAsciiPunct c = true)) = false := by
          cases hx : (decide ¬(c ∈ arLetters ∨ isAsciiPunct c = true))
          · rfl
          · exact absurd hx hkeep
        simp only [List.filter_cons, hkeep', Bool.false_eq_true, if_false, hwf]
        exact ih'

/-- C7: the identifier cleaner reverses the order of Arabic-indic digit runs
before concatenating (runs `["٣٤","١٢"]` give 1234, not 3412); and with no
Arabic-indic digits in the raw string it parses the Western digits left after
stripping non-digits, or yields 0 when none remain. -/
theorem C7_clean_id_reverses_runs (s : String) :
    (runsOf isArabicIndicDigit (stripArPun s.data) = [['٣', '٤'], ['١', '٢']] →
      clean_id s = 1234) ∧
    ((∀ c ∈ s.data, isArabicIndicDigit c = false) →
      clean_id s = (if (s.data.filter isWesternDigit).isEmpty then 0
                    else natOfDigits (s.data.filter isWesternDigit))) := by
  constructor
  · intro hruns
    simp only [clean_id]
    rw [hruns]
    rw [if_pos (by decide)]
    decide
  · intro hnoar
    have hstrip : ∀ c ∈ stripArPun s.data, isArabicIndicDigit c = false :=
      fun c hc => hnoar c (List.mem_of_mem_filter hc)
    have hms : runsOf isArabicIndicDigit (stripArPun s.data) = [] :=
      runsOfAux_nil _ _ hstrip
    have hds := stripArPun_filter_any s.data hnoar
    simp only [clean_id]
    rw [hms, hds]
    simp only [List.reverse_nil, List.flatten_nil, List.isEmpty_nil, not_true,
      Bool.false_eq_true, if_false]
    by_cases he : (s.data.filter isWesternDigit).isEmpty = true
    · rw [if_pos he, if_pos he]
    · rw [if_neg he, if_neg he]
      rw [toWesternL_id_of_no_arabic]
      intro c hc
      exact western_not_arabic c (List.of_mem_filter hc)

/-- Witness for C7: `"٣٤ ١٢"` has Arabic-indic runs 34 then 12 and cleans to
1234; `"اب12"` has none and cleans to 12. -/
theorem C7_witness :
    (runsOf isArabicIndicDigit (stripArPun "٣٤ ١٢".data) = [['٣', '٤'], ['١', '٢']] ∧
      clean_id "٣٤ ١٢" = 1234) ∧
    clean_id "اب12" = 12 := by
  refine ⟨⟨by decide, (C7_clean_id_reverses_runs "٣٤ ١٢").1 (by decide)⟩, ?_⟩
  have := (C7_clean_id_reverses_runs "اب12").2 (by decide)
  rw [this]
  decide

/- ### Duplicate-line collapser (`remove_cross_line_duplicates`, utils.py 249–318). -/

def markerGlyphs : List Char := ['م', 'ق', 'ك']

/-- `str.replace(a+b, a+' '+b)` for a two-character pattern (left-to-right,
non-overlapping), used by the marker-spacing normalisation. -/
def replacePair (a b : Char) : List Char → List Char
  | [] => []
  | [c] => [c]
  | c :: d :: rest =>
    if c = a ∧ d = b then a :: ' ' :: b :: replacePair a b rest
    else c :: replacePair a b (d :: rest)

/-- The normalisation loop: for each marker `m`, `replace('-'+m, '- '+m)`
then `replace('ـ'+m, 'ـ '+m)`. -/
def normalizeMarkers (l : List Char) : List Char :=
  markerGlyphs.foldl (fun acc m => replacePair 'ـ' m (replacePair '-' m acc)) l

mutual

/-- `re.split(r'\s+', s)`: pieces between maximal whitespace runs, keeping
the empty boundary pieces CPython produces. -/
def reSplitAux : List Char → List Char → List (List Char)
  | [], acc => [acc.reverse]
  | c :: cs, acc =>
    if isPySpace c then acc.reverse :: reSplitSkip cs else reSplitAux cs (c :: acc)

/-- State of `reSplitAux` just after a whitespace run began. -/
def reSplitSkip : List Char → List (List Char)
  | [] => [[]]
  | c :: cs => if isPySpace c then reSplitSkip cs else reSplitAux cs [c]

end

def reSplitWs (l : List Char) : List (List Char) := reSplitAux l []

/-- `re.match(r'^([مقك])([0-9٠-٩]+)$', w)`: fused marker+digits token. -/
def markerNumSplit : List Char → Option (Char × List Char)
  | [] => none
  | c :: rest =>
    if c ∈ markerGlyphs ∧ rest ≠ [] ∧ rest.all isAnyDigit then some (c, rest) else none

/-- `re.match(r'^[0-9٠-٩]+$', w)`. -/
def isDigitsTok (w : List Char) : Bool := !w.isEmpty && w.all isAnyDigit

/-- Append an occurrence to `word_positions[key]` (insertion-ordered dict). -/
def addPos (key : List Char) (occ : List Nat) :
    List (List Char × List (List Nat)) → List (List Char × List (List Nat))
  | [] => [(key, [occ])]
  | (k, ps) :: rest =>
    if k = key then (k, ps ++ [occ]) :: rest else (k, ps) :: addPos key occ rest

/-- The token-classification walk of `remove_cross_line_duplicates`:
fused marker+number, marker followed by a number token, skipped
standalones, or a regular word. -/
def scanParts : List (List Char) → Nat → List (List Char × List (List Nat)) →
    List (List Char × List (List Nat))
  | [], _, wp => wp
  | [w], i, wp =>
    match markerNumSplit w with
    | some (mk, num) => addPos (mk :: ' ' :: num) [i] wp
    | none =>
      if w ∈ [['م'], ['ق'], ['ك'], ['-'], ['ـ']] ∨ isDigitsTok w then wp
      else addPos w [i] wp
  | w :: w2 :: rest2, i, wp =>
    match markerNumSplit w with
    | some (mk, num) => scanParts (w2 :: rest2) (i + 1) (addPos (mk :: ' ' :: num) [i] wp)
    | none =>
      if w ∈ [['م'], ['ق'], ['ك']] ∧ isDigitsTok w2 then
        scanParts rest2 (i + 2) (addPos (w ++ ' ' :: w2) [i, i + 1] wp)
      else if w ∈ [['م'], ['ق'], ['ك'], ['-'], ['ـ']] ∨ isDigitsTok w then
        scanParts (w2 :: rest2) (i + 1) wp
      else scanParts (w2 :: rest2) (i + 1) (addPos w [i] wp)

/-- `positions_to_remove`: for every key, all occurrences but the last. -/
def positionsToRemove (wp : List (List Char × List (List Nat))) : List Nat :=
  (wp.map (fun kv => kv.2.dropLast.flatten)).flatten

/-- `[parts[i] for i in range(len(parts)) if i not in positions_to_remove]`. -/
def rebuildParts (parts : List (List Char)) (rem : List Nat) : List (List Char) :=
  (parts.enum.filter (fun p => ¬ p.1 ∈ rem)).map Prod.snd

/-- `remove_cross_line_duplicates(address)` from `app/utils.py`. -/
def remove_cross_line_duplicates (address : String) : String :=
  if address = "" ∨ address = "0" then address
  else
    let normalized := normalizeMarkers address.data
    let parts := reSplitWs normalized
    if parts.length ≤ 1 then address
    else
      let wp := scanParts parts 0 []
      ⟨joinWords (rebuildParts parts (positionsToRemove wp))⟩

/-- Adjacent occurrence of the two-character pattern `a b`. -/
def hasPair (a b : Char) : List Char → Bool
  | [] => false
  | [_] => false
  | c :: d :: rest => if c = a ∧ d = b then true else hasPair a b (d :: rest)

theorem replacePair_id (a b : Char) : ∀ l : List Char,
    hasPair a b l = false → replacePair a b l = l := by
  intro l
  induction l with
  | nil => intro _; rfl
  | cons c rest ih =>
    intro h
    cases rest with
    | nil => rfl
    | cons d rest2 =>
      have hcd : ¬(c = a ∧ d = b) := by
        intro hx
        rw [hasPair, if_pos hx] at h
        exact absurd h (by decide)
      have htl : hasPair a b (d :: rest2) = false := by
        rw [hasPair, if_neg hcd] at h
        exact h
      rw [replacePair, if_neg hcd, ih htl]

theorem normalizeMarkers_id (l : List Char)
    (h : ∀ m ∈ markerGlyphs, hasPair '-' m l = false ∧ hasPair 'ـ' m l = false) :
    normalizeMarkers l = l := by
  have hm := h 'م' (by decide)
  have hq := h 'ق' (by decide)
  have hk := h 'ك' (by decide)
  show replacePair 'ـ' 'ك' (replacePair '-' 'ك'
      (replacePair 'ـ' 'ق' (replacePair '-' 'ق'
        (replacePair 'ـ' 'م' (replacePair '-' 'م' l))))) = l
  rw [replacePair_id _ _ l hm.1, replacePair_id _ _ l hm.2,
    replacePair_id _ _ l hq.1, replacePair_id _ _ l hq.2,
    replacePair_id _ _ l hk.1, replacePair_id _ _ l hk.2]

theorem reSplitAux_append_word : ∀ (w cs acc : List Char),
    (∀ c ∈ w, isPySpace c = false) →
    reSplitAux (w ++ cs) acc = reSplitAux cs (w.reverse ++ acc) := by
  intro w
  induction w with
  | nil => intro cs acc _; simp
  | cons c w' ih =>
    intro cs acc hw
    have hc : isPySpace c = false := hw c (by simp)
    simp only [List.cons_append, reSplitAux, hc, Bool.false_eq_true, if_false,
      List.append_eq]
    rw [ih cs (c :: acc) (fun a ha => hw a (by simp [ha]))]
    simp

theorem reSplitSkip_head_nonspace (c : Char) (cs : List Char)
    (h : isPySpace c = false) : reSplitSkip (c :: cs) = reSplitWs (c :: cs) := by
  show (if isPySpace c then reSplitSkip cs else reSplitAux cs [c]) = reSplitAux (c :: cs) []
  rw [if_neg (by rw [h]; exact Bool.false_ne_true)]
  show reSplitAux cs [c] = (if isPySpace c then [].reverse :: reSplitSkip cs else reSplitAux cs (c :: []))
  rw [if_neg (by rw [h]; exact Bool.false_ne_true)]

theorem reSplitWs_joinWords : ∀ ts : List (List Char),
    (∀ w ∈ ts, w ≠ [] ∧ ∀ c ∈ w, isPySpace c = false) → ts ≠ [] →
    reSplitWs (joinWords ts) = ts := by
  intro ts
  induction ts with
  | nil => intro _ h; exact absurd rfl h
  | cons w ts' ih =>
    intro h _
    have hw := h w (by simp)
    cases ts' with
    | nil =>
      show reSplitAux (joinWords [w]) [] = [w]
      simp only [joinWords]
      have := reSplitAux_append_word w [] [] hw.2
      simp only [List.append_nil] at this
      rw [this]
      simp [reSplitAux]
    | cons w2 ts'' =>
      show reSplitAux (joinWords (w :: w2 :: ts'')) [] = w :: w2 :: ts''
      simp only [joinWords]
      rw [reSplitAux_append_word w (' ' :: joinWords (w2 :: ts'')) [] hw.2]
      have hsp : isPySpace ' ' = true := by decide
      simp only [reSplitAux, hsp, if_true, List.append_nil, List.reverse_reverse]
      have hw2 := h w2 (by simp)
      have hskip : reSplitSkip (joinWords (w2 :: ts'')) = reSplitWs (joinWords (w2 :: ts'')) := by
        cases hx : w2 with
        | nil => exact absurd hx hw2.1
        | cons c2 w2' =>
          have hc2 : isPySpace c2 = false := by
            apply hw2.2
            rw [hx]
            simp
          cases ts'' with
          | nil =>
            simp only [joinWords, hx]
            exact reSplitSkip_head_nonspace c2 w2' hc2
          | cons w3 ts3 =>
            simp only [joinWords, hx, List.cons_append]
            exact reSplitSkip_head_nonspace c2 _ hc2
      rw [hskip]
      have := ih (fun u hu => h u (by simp [hu])) (by simp)
      rw [this]

theorem dropLast_of_length_le_one {α : Type} (l : List α) (h : l.length ≤ 1) :
    l.dropLast = [] := by
  cases l with
  | nil => rfl
  | cons x xs =>
    cases xs with
    | nil => rfl
    | cons y ys => simp at h

theorem positionsToRemove_nil (wp : List (List Char × List (List Nat)))
    (h : ∀ kv ∈ wp, kv.2.length ≤ 1) : positionsToRemove wp = [] := by
  unfold positionsToRemove
  induction wp with
  | nil => rfl
  | cons kv rest ih =>
    have h1 : kv.2.dropLast = [] := dropLast_of_length_le_one _ (h kv (by simp))
    simp only [List.map_cons, List.flatten_cons, h1, List.flatten_nil,
      List.nil_append]
    exact ih (fun a ha => h a (by simp [ha]))

theorem rebuildParts_nil (parts : List (List Char)) : rebuildParts parts [] = parts := by
  unfold rebuildParts
  have : parts.enum.filter (fun p => ¬ p.1 ∈ ([] : List Nat)) = parts.enum := by
    apply List.filter_eq_self.mpr
    intro p _
    simp
  rw [this, List.enum_map_snd]

/-- C2 counterexample: the duplicate collapser is not idempotent.  On
`"م اب ٢ اب م ٢"` the first pass removes the duplicated word `اب`, which
makes the leading `م` adjacent to the digit token `٢`; a second pass then
sees the marker pair `م ٢` twice and removes one more token. -/
theorem C2_counterexample :
    remove_cross_line_duplicates (remove_cross_line_duplicates "م اب ٢ اب م ٢") ≠
      remove_cross_line_duplicates "م اب ٢ اب م ٢" := by
  decide

/-- C2 amended: the collapser is not idempotent in general (see the
counterexample), but it is the identity on every single-space-separated
address whose text contains no dash/tatweel glued to a marker glyph and in
which no word and no marker-number pair is scanned more than once. -/
theorem C2_amended_identity_on_no_duplicates (ts : List (List Char))
    (hgood : ∀ w ∈ ts, w ≠ [] ∧ ∀ c ∈ w, isPySpace c = false)
    (hpairs : ∀ m ∈ markerGlyphs, hasPair '-' m (joinWords ts) = false ∧
      hasPair 'ـ' m (joinWords ts) = false)
    (hdup : ∀ kv ∈ scanParts ts 0 [], kv.2.length ≤ 1) :
    remove_cross_line_duplicates ⟨joinWords ts⟩ = ⟨joinWords ts⟩ := by
  by_cases hguard : (⟨joinWords ts⟩ : String) = "" ∨ (⟨joinWords ts⟩ : String) = "0"
  · unfold remove_cross_line_duplicates
    rw [if_pos hguard]
  · have hts : ts ≠ [] := by
      rintro rfl
      exact hguard (Or.inl rfl)
    have hsplit : reSplitWs (normalizeMarkers (joinWords ts)) = ts := by
      rw [normalizeMarkers_id _ hpairs]
      exact reSplitWs_joinWords ts hgood hts
    simp only [remove_cross_line_duplicates]
    rw [if_neg hguard]
    show (if (reSplitWs (normalizeMarkers (joinWords ts))).length ≤ 1 then
        (⟨joinWords ts⟩ : String)
      else ⟨joinWords (rebuildParts (reSplitWs (normalizeMarkers (joinWords ts)))
        (positionsToRemove (scanParts (reSplitWs (normalizeMarkers (joinWords ts))) 0 [])))⟩) =
      ⟨joinWords ts⟩
    rw [hsplit]
    by_cases hlen : ts.length ≤ 1
    · rw [if_pos hlen]
    · rw [if_neg hlen]
      rw [positionsToRemove_nil _ hdup, rebuildParts_nil]

/-- Witness for amended C2: `"اب م ٢ جد"` has no duplicate word or
marker-number pair and passes through unchanged. -/
theorem C2_amended_witness :
    remove_cross_line_duplicates "اب م ٢ جد" = "اب م ٢ جد" := by
  have h := C2_amended_identity_on_no_duplicates
    [['ا', 'ب'], ['م'], ['٢'], ['ج', 'د']] (by decide) (by decide) (by decide)
  have hbridge : (⟨joinWords [['ا', 'ب'], ['م'], ['٢'], ['ج', 'د']]⟩ : String) =
      "اب م ٢ جد" := by decide
  rw [hbridge] at h
  exact h

/- ### Hand-compiled regex scanners for the address extractors.
Each Python regex is deterministic on its pattern (its character classes are
disjoint), so greedy scanning needs no backtracking.  `\b` context is carried
as the previous original character. -/

def prevNonWord : Option Char → Bool
  | none => true
  | some c => !isWordChar c

def headNonWord : List Char → Bool
  | [] => true
  | c :: _ => !isWordChar c

/-- Left context `(?:^|[\s\-ـ])` of the marker patterns. -/
def prevSep : Option Char → Bool
  | none => true
  | some c => isPySpace c || c = '-' || c = 'ـ'

/-- Right context `(?:[\s\-ـ]|$)`. -/
def headSep : List Char → Bool
  | [] => true
  | c :: _ => isPySpace c || c = '-' || c = 'ـ'

/-- Optional separator `[\-ـ:]?`. -/
def afterOptSep : List Char → List Char
  | [] => []
  | c :: rest => if c = '-' ∨ c = 'ـ' ∨ c = ':' then rest else c :: rest

theorem afterOptSep_length_le (l : List Char) : (afterOptSep l).length ≤ l.length := by
  cases l with
  | nil => simp [afterOptSep]
  | cons c rest =>
    by_cases h : c = '-' ∨ c = 'ـ' ∨ c = ':'
    · simp only [afterOptSep, if_pos h, List.length_cons]
      omega
    · simp [afterOptSep, h]

theorem dropWhile_length_le {α : Type} (p : α → Bool) (l : List α) :
    (l.dropWhile p).length ≤ l.length := (List.dropWhile_sublist p).length_le

/-- Digits group and remainder of a `\s*[\-ـ:]?\s*[0-9٠-٩]+` match. -/
def matchNumGroup (rest : List Char) : Option (List Char × List Char) :=
  let s3 := (afterOptSep (rest.dropWhile isPySpace)).dropWhile isPySpace
  let g := s3.takeWhile isAnyDigit
  if g.isEmpty then none else some (g, s3.dropWhile isAnyDigit)

theorem matchNumGroup_length (rest g r : List Char)
    (h : matchNumGroup rest = some (g, r)) : r.length ≤ rest.length := by
  simp only [matchNumGroup] at h
  split at h
  · exact absurd h (by simp)
  · injection h with h1
    have hr := congrArg Prod.snd h1
    simp only at hr
    rw [← hr]
    calc (((afterOptSep (rest.dropWhile isPySpace)).dropWhile
            isPySpace).dropWhile isAnyDigit).length
        ≤ ((afterOptSep (rest.dropWhile isPySpace)).dropWhile isPySpace).length :=
          dropWhile_length_le _ _
      _ ≤ (afterOptSep (rest.dropWhile isPySpace)).length := dropWhile_length_le _ _
      _ ≤ (rest.dropWhile isPySpace).length := afterOptSep_length_le _
      _ ≤ rest.length := dropWhile_length_le _ _

/-- `re.sub(r'\b[مقك]\s*[\-ـ:]?\s*[0-9٠-٩]+', ' ', ·)`: marker at a word
boundary plus adjacent digit group, replaced by one space.  Fuel-bounded
structural recursion: every step consumes at least one character, so fuel
equal to the input length is always sufficient. -/
def subMarkerNumF : Nat → Option Char → List Char → List Char
  | 0, _, l => l
  | _ + 1, _, [] => []
  | fuel + 1, prev, c :: rest =>
    if prevNonWord prev ∧ c ∈ markerGlyphs then
      match matchNumGroup rest with
      | some (_, r) => ' ' :: subMarkerNumF fuel (some '0') r
      | none => c :: subMarkerNumF fuel (some c) rest
    else c :: subMarkerNumF fuel (some c) rest

def subMarkerNum (prev : Option Char) (l : List Char) : List Char :=
  subMarkerNumF l.length prev l

/-- `re.sub(r'\b[0-9٠-٩]+\b', ' ', ·)`. -/
def subDigitsAloneF : Nat → Option Char → List Char → List Char
  | 0, _, l => l
  | _ + 1, _, [] => []
  | fuel + 1, prev, c :: rest =>
    if prevNonWord prev ∧ isAnyDigit c = true ∧ headNonWord (rest.dropWhile isAnyDigit) then
      ' ' :: subDigitsAloneF fuel (some c) (rest.dropWhile isAnyDigit)
    else c :: subDigitsAloneF fuel (some c) rest

def subDigitsAlone (prev : Option Char) (l : List Char) : List Char :=
  subDigitsAloneF l.length prev l

/-- `re.sub(r'\b[X]\b', ' ', ·)` for a marker set `X`. -/
def subMarkerAlone (ms : List Char) : Option Char → List Char → List Char
  | _, [] => []
  | prev, c :: rest =>
    if c ∈ ms ∧ prevNonWord prev = true ∧ headNonWord rest = true then
      ' ' :: subMarkerAlone ms (some c) rest
    else c :: subMarkerAlone ms (some c) rest

/-- `re.sub(r'[\-ـ]+', ' ', ·)`. -/
def subDashRunsF : Nat → List Char → List Char
  | 0, l => l
  | _ + 1, [] => []
  | fuel + 1, c :: rest =>
    if c = '-' ∨ c = 'ـ' then
      ' ' :: subDashRunsF fuel (rest.dropWhile (fun d => d = '-' ∨ d = 'ـ'))
    else c :: subDashRunsF fuel rest

def subDashRuns (l : List Char) : List Char := subDashRunsF l.length l

/-- `str.replace(old, new)`; fuel-bounded, `old` non-empty at every call site. -/
def pyReplaceFuel (old rep : List Char) : Nat → List Char → List Char
  | 0, l => l
  | fuel + 1, l =>
    if old ≠ [] ∧ old.isPrefixOf l = true then
      rep ++ pyReplaceFuel old rep fuel (l.drop old.length)
    else
      match l with
      | [] => []
      | c :: cs => c :: pyReplaceFuel old rep fuel cs

def pyReplace (old rep l : List Char) : List Char := pyReplaceFuel old rep l.length l

/-- `str.strip()`. -/
def pyStrip (l : List Char) : List Char :=
  ((l.dropWhile isPySpace).reverse.dropWhile isPySpace).reverse

/-- Python `sub in s` (contiguous substring occurrence). -/
def isSubL (p : List Char) : List Char → Bool
  | [] => p.isEmpty
  | c :: rest => p.isPrefixOf (c :: rest) || isSubL p rest

/-- Carving of one digit run by non-overlapping `finditer(r'[0-9٠-٩]{2,3}')`:
greedy groups of 3, a trailing pair, a trailing single digit unmatched. -/
def carveRunF : Nat → Nat → List Char → List (Nat × List Char)
  | 0, _, _ => []
  | fuel + 1, i, run =>
    if 3 ≤ run.length then (i, run.take 3) :: carveRunF fuel (i + 3) (run.drop 3)
    else if 2 ≤ run.length then [(i, run)]
    else []

def carveRun (i : Nat) (run : List Char) : List (Nat × List Char) :=
  carveRunF run.length i run

/-- All `finditer(r'[0-9٠-٩]{2,3}')` matches with their start offsets. -/
def digitGroupsF : Nat → Nat → List Char → List (Nat × List Char)
  | 0, _, _ => []
  | _ + 1, _, [] => []
  | fuel + 1, i, c :: rest =>
    if isAnyDigit c then
      carveRun i (c :: rest.takeWhile isAnyDigit) ++
        digitGroupsF fuel (i + 1 + (rest.takeWhile isAnyDigit).length)
          (rest.dropWhile isAnyDigit)
    else digitGroupsF fuel (i + 1) rest

def digitGroups (i : Nat) (l : List Char) : List (Nat × List Char) :=
  digitGroupsF l.length i l

/-- First match of `(?:^|[\s\-ـ])m\s*[\-ـ:]?\s*([0-9٠-٩]{1,3})`: the captured
(up to 3, greedy) digit group. -/
def markerAdjScan (m : Char) : Option Char → List Char → Option (List Char)
  | _, [] => none
  | prev, c :: rest =>
    if c = m ∧ prevSep prev = true then
      match matchNumGroup rest with
      | some (g, _) => some (g.take 3)
      | none => markerAdjScan m (some c) rest
    else markerAdjScan m (some c) rest

/-- `extract_marker_number(sval, marker)` from `app/utils.py` ("" as `[]`). -/
def extract_marker_numberL (l : List Char) (m : Char) : List Char :=
  match markerAdjScan m none (sanitizeL l) with
  | some g => g
  | none => []

def extract_marker_number (s : String) (m : Char) : String :=
  ⟨ extract_marker_numberL s.data m⟩

/-- First match of `(?:^|[\s\-ـ])m(?:[\s\-ـ]|$)`: position of the marker glyph
(as `marker_idx` computes it; on sanitized text the only whitespace is `' '`). -/
def markerPosScan (m : Char) : Option Char → Nat → List Char → Option Nat
  | _, _, [] => none
  | prev, i, c :: rest =>
    if c = m ∧ prevSep prev = true ∧ headSep rest = true then some i
    else markerPosScan m (some c) (i + 1) rest

def natDist (a b : Nat) : Nat := if a ≤ b then b - a else a - b

/-- `closest_number_after_marker(sval, marker)` from `app/utils.py`. -/
def closest_number_after_markerL (l : List Char) (m : Char) : List Char :=
  let sval := sanitizeL l
  match markerPosScan m none 0 sval with
  | none => []
  | some idx =>
    match (digitGroups 0 sval).foldl (fun best g =>
      match best with
      | none => some (natDist g.1 idx, g.2)
      | some (d, cand) =>
        if natDist g.1 idx < d then some (natDist g.1 idx, g.2)
        else some (d, cand)) none with
    | some (_, cand) => cand
    | none => []

def closest_number_after_marker (s : String) (m : Char) : String :=
  ⟨closest_number_after_markerL s.data m⟩

/- ### Locality extractors (utils.py 47–147) and `choose_address`. -/

/-- `extract_locality_prefix(sval)`: sanitized prefix before the first
`[مق]` or digit, reduced to Arabic letters and whitespace. -/
def extract_locality_prefixL (l : List Char) : List Char :=
  let sval := sanitizeL l
  let pre := sval.takeWhile (fun c => ¬(c = 'م' ∨ c = 'ق' ∨ isAnyDigit c = true))
  collapseWs (pre.map (fun c => if isArabicBlock c || isPySpace c then c else ' '))

/-- Chunking `(?:\s+[؀-ۿ]{2,}){0,3}`: a match takes at most 4 chain words. -/
def chunk4F : Nat → List (List Char) → List (List (List Char))
  | 0, _ => []
  | _ + 1, [] => []
  | fuel + 1, w :: rest => (w :: rest.take 3) :: chunk4F fuel (rest.drop 3)

def chunk4 (ws : List (List Char)) : List (List (List Char)) := chunk4F ws.length ws

/-- `findall(r'[؀-ۿ]{2,}(?:\s+[؀-ۿ]{2,}){0,3}')` over the single-spaced word
list of an all-Arabic text: maximal chains of ≥2-letter words, carved greedily
into chunks of at most 4 words. -/
def phraseScanF : Nat → List (List Char) → List (List (List Char))
  | 0, _ => []
  | _ + 1, [] => []
  | fuel + 1, w :: rest =>
    if 2 ≤ w.length then
      chunk4 (w :: rest.takeWhile (fun u => 2 ≤ u.length)) ++
        phraseScanF fuel (rest.dropWhile (fun u => 2 ≤ u.length))
    else phraseScanF fuel rest

def phraseScan (ws : List (List Char)) : List (List (List Char)) :=
  phraseScanF ws.length ws

/-- Stable insertion sort, descending: `x` precedes all later `y` with
`le y x` (ties keep the earlier element first), as CPython's stable
`sort(reverse=True)`. -/
def insDescBy {α : Type} (le : α → α → Bool) (x : α) : List α → List α
  | [] => [x]
  | y :: ys => if le y x then x :: y :: ys else y :: insDescBy le x ys

def sortDescBy {α : Type} (le : α → α → Bool) : List α → List α
  | [] => []
  | x :: xs => insDescBy le x (sortDescBy le xs)

/-- The ranking tuple `(count_arabic_letters(p), len(p.split()), len(p))`. -/
def locKeyL (p : List Char) : Nat × Nat × Nat :=
  (countArabicL p, (splitWords p).length, p.length)

/-- Lexicographic `≤` on ranking tuples. -/
def tupleLE (a b : Nat × Nat × Nat) : Bool :=
  a.1 < b.1 || (a.1 = b.1 && (a.2.1 < b.2.1 || (a.2.1 = b.2.1 && a.2.2 ≤ b.2.2)))

/-- `extract_longest_arabic_phrase(sval)` from `app/utils.py`. -/
def extract_longest_arabic_phraseL (l : List Char) : List Char :=
  let sval := sanitizeL l
  if sval.isEmpty then []
  else
    let tmp1 := sval.map (fun c => if isAnyDigit c then ' ' else c)
    let tmp2 := subMarkerAlone ['م', 'ق'] none tmp1
    let tmp3 := tmp2.map (fun c => if c = '-' ∨ c = 'ـ' then ' ' else c)
    let phrases := (phraseScan (splitWords (collapseWs tmp3))).map
      (fun ch => collapseWs (joinWords ch))
    if phrases.isEmpty then []
    else (sortDescBy (fun a b => tupleLE (locKeyL a) (locKeyL b)) phrases).headD []

/-- `extract_all_locality_parts(sval)` from `app/utils.py` (the trailing
`.strip()` is a no-op after the whitespace collapse). -/
def extract_all_locality_partsL (l : List Char) : List Char :=
  let sval := sanitizeL l
  let c1 := subMarkerNum none sval
  let c2 := subDigitsAlone none c1
  let c3 := subMarkerAlone markerGlyphs none c2
  let c4 := subDashRuns c3
  collapseWs (c4.map (fun c => if isArabicBlock c || isPySpace c then c else ' '))

def knownCities : List String :=
  ["اكتوبر", "6 اكتوبر", "القاهرة", "الجيزة", "الاسكندرية", "الاسماعيلية",
   "بورسعيد", "السويس", "المنصورة", "طنطا", "الزقازيق", "اسيوط", "الفيوم",
   "بنها", "دمياط", "اسوان", "الاقصر", "قنا", "سوهاج", "المنيا", "كفر الشيخ",
   "الدقهلية", "الشرقية", "الغربية", "القليوبية", "البحيرة", "مطروح"]

def cityWordMatch (w : List Char) : Bool :=
  knownCities.any (fun city => isSubL city.data w || isSubL w city.data)

def cityTailFrom : List (List Char) → Option (List (List Char))
  | [] => none
  | w :: rest => if cityWordMatch w then some (w :: rest) else cityTailFrom rest

/-- `extract_city_district(sval)` from `app/utils.py`. -/
def extract_city_districtL (l : List Char) : List Char :=
  let words := splitWords (sanitizeL l)
  match cityTailFrom words with
  | some tl => joinWords tl
  | none =>
    if 2 ≤ words.length then joinWords (words.drop (words.length - 2))
    else
      match words with
      | [w] => w
      | _ => []

/-- `extract_area_name(sval, city)` from `app/utils.py`. -/
def extract_area_nameL (l : List Char) (city : List Char) : List Char :=
  let sval := sanitizeL l
  let sval2 := if city ≠ [] then pyReplace city [' '] sval else sval
  let c1 := subMarkerNum none sval2
  let c2 := subDigitsAlone none c1
  let c3 := subMarkerAlone markerGlyphs none c2
  collapseWs (subDashRuns c3)

/-- The candidate list one source contributes in `pick_locality`. -/
def localityCands (s : String) : List (List Char) :=
  (if extract_all_locality_partsL s.data ≠ [] then [extract_all_locality_partsL s.data]
   else []) ++
  [ extract_locality_prefixL s.data, extract_longest_arabic_phraseL s.data]

/-- `list(dict.fromkeys(cands))`: deduplicate keeping first occurrences. -/
def dedupKeepFirstF : Nat → List (List Char) → List (List Char)
  | 0, _ => []
  | _ + 1, [] => []
  | fuel + 1, c :: rest => c :: dedupKeepFirstF fuel (rest.filter (fun d => d ≠ c))

def dedupKeepFirst (l : List (List Char)) : List (List Char) :=
  dedupKeepFirstF l.length l

/-- `pick_locality(addr_t, addr_e)` from `app/utils.py`. -/
def pick_locality (addrT addrE : String) : String :=
  let cands1 := ((localityCands addrT ++ localityCands addrE).map pyStrip).filter
    (fun c => ¬c.isEmpty)
  if cands1.isEmpty then ""
  else
    let best := (sortDescBy (fun a b => tupleLE (locKeyL a) (locKeyL b))
      (dedupKeepFirst cands1)).headD []
    if countArabicL best < 3 then
      let raw := sanitizeL addrT.data
      let raw2 := sanitizeL addrE.data
      ⟨pyStrip (if countArabicL raw2 ≤ countArabicL raw then raw else raw2)⟩
    else ⟨pyStrip best⟩

/-- One iteration of the marker loop of `choose_address` (utils.py 207–228):
the number recorded for marker `m`, if any. -/
def markerEntry (addrT addrE : List Char) (m : Char) : Option (List Char) :=
  let mT := extract_marker_numberL addrT m
  let mE := extract_marker_numberL addrE m
  if mT.isEmpty ∧ mE.isEmpty then none
  else
    let m2T := closest_number_after_markerL addrT m
    let m2E := closest_number_after_markerL addrE m
    let allT := (runsOf isAnyDigit addrT).map (fun r => (⟨toWesternL r⟩ : String))
    let allE := (runsOf isAnyDigit addrE).map (fun r => (⟨toWesternL r⟩ : String))
    let best := bestNumberWithTwos ⟨toWesternL (if m2T.isEmpty then mT else m2T)⟩
      ⟨toWesternL (if m2E.isEmpty then mE else m2E)⟩ allT allE
    if best = "" then none else some (toArabicL best.data)

/-- The `markers` dict in loop order. -/
def markersOf (order : List Char) (addrT addrE : List Char) : List (Char × List Char) :=
  order.filterMap (fun m => (markerEntry addrT addrE m).map (fun v => (m, v)))

/-- `' -'.join(...)`. -/
def joinDash : List (List Char) → List Char
  | [] => []
  | [x] => x
  | x :: xs => x ++ ' ' :: '-' :: joinDash xs

/-- Serialization of the reconciled address (utils.py 230–241). -/
def serializeMarkers (area city : List Char) (ms : List (Char × List Char))
    (addrT addrE : List Char) : List Char :=
  match ms with
  | [] =>
    let r0 := pyStrip (area ++ [' '] ++ city)
    if ¬r0.isEmpty then r0 else if ¬addrE.isEmpty then addrE else addrT
  | [(m, n)] => pyStrip (area ++ [' ', m, ' '] ++ n ++ [' '] ++ city)
  | [(m1, n1), (m2, n2)] =>
    pyStrip (area ++ [' ', m1, ' '] ++ n1 ++ [' ', '-', m2, ' '] ++ n2 ++ [' '] ++ city)
  | _ =>
    pyStrip (area ++ [' '] ++ joinDash (ms.map (fun kv => [kv.1, ' '] ++ kv.2)) ++
      [' '] ++ city)

/-- `choose_address` with the marker check order made explicit (the source
iterates `['م', 'ق', 'ك']`). -/
def chooseAddressOrd (order : List Char) (aT aE : String) : String :=
  let addrT := sanitizeL aT.data
  let addrE := sanitizeL aE.data
  if addrT.isEmpty ∧ addrE.isEmpty then "0"
  else
    let cityT := extract_city_districtL addrT
    let cityE := extract_city_districtL addrE
    let city := if countArabicL cityE ≤ countArabicL cityT then cityT else cityE
    let areaT := extract_area_nameL addrT city
    let areaE := extract_area_nameL addrE city
    let area := if countArabicL areaE ≤ countArabicL areaT then areaT else areaE
    let result := serializeMarkers area city (markersOf order addrT addrE) addrT addrE
    ⟨collapseWs ((result.filter (fun c => ¬isEnglishLetter c)).map sanStep3)⟩

/-- `choose_address(addr_tesseract, addr_easyocr)` from `app/utils.py`. -/
def choose_address (aT aE : String) : String := chooseAddressOrd markerGlyphs aT aE

/- ### Claims about the marker map and locality selection. -/

theorem markerEntry_none_of_empty (aT aE : List Char) (m : Char)
    (hT : extract_marker_numberL aT m = []) (hE : extract_marker_numberL aE m = []) :
    markerEntry aT aE m = none := by
  unfold markerEntry
  rw [if_pos]
  rw [hT, hE]
  exact ⟨rfl, rfl⟩

theorem markersOf_cons (m' : Char) (rest : List Char) (aT aE : List Char) :
    markersOf (m' :: rest) aT aE =
      (match markerEntry aT aE m' with
       | some v => (m', v) :: markersOf rest aT aE
       | none => markersOf rest aT aE) := by
  cases h : markerEntry aT aE m' <;>
    simp [markersOf, List.filterMap_cons, h]

theorem lookup_cons_ne {α : Type} (m m' : Char) (v : α) (tl : List (Char × α))
    (h : ¬m = m') : ((m', v) :: tl).lookup m = tl.lookup m := by
  have hbe : (m == m') = false := beq_eq_false_iff_ne.mpr h
  simp [List.lookup, hbe]

theorem lookup_cons_self {α : Type} (m : Char) (v : α) (tl : List (Char × α)) :
    ((m, v) :: tl).lookup m = some v := by
  simp [List.lookup]

theorem lookup_markersOf_of_entry_none (order : List Char) (aT aE : List Char) (m : Char)
    (h : markerEntry aT aE m = none) : (markersOf order aT aE).lookup m = none := by
  induction order with
  | nil => rfl
  | cons m' rest ih =>
    cases hm' : markerEntry aT aE m' with
    | none =>
      simp only [markersOf_cons, hm']
      exact ih
    | some v =>
      by_cases hmm : m = m'
      · subst hmm
        rw [hm'] at h
        exact absurd h (by simp)
      · simp only [markersOf_cons, hm']
        rw [lookup_cons_ne m m' v _ hmm]
        exact ih

theorem markersOf_eq_nil (order : List Char) (aT aE : List Char)
    (h : ∀ m ∈ order, extract_marker_numberL aT m = [] ∧ extract_marker_numberL aE m = []) :
    markersOf order aT aE = [] := by
  induction order with
  | nil => rfl
  | cons m' rest ih =>
    have hent := markerEntry_none_of_empty aT aE m' (h m' (by simp)).1 (h m' (by simp)).2
    simp only [markersOf, List.filterMap_cons, hent, Option.map_none']
    exact ih (fun a ha => h a (by simp [ha]))

/-- C10: the reconciled address records a number for a marker glyph only if
the adjacent pattern match is non-empty on at least one sanitized source;
with both adjacent matches empty the loop `continue`s before consulting the
nearest-number strategy, and the glyph is absent from the marker map. -/
theorem C10_marker_requires_adjacent_match (t e : String) (m : Char)
    (ht : extract_marker_number (sanitize_addr t) m = "")
    (he : extract_marker_number (sanitize_addr e) m = "") :
    (markersOf markerGlyphs (sanitizeL t.data) (sanitizeL e.data)).lookup m = none := by
  have hT : extract_marker_numberL (sanitizeL t.data) m = [] := congrArg String.data ht
  have hE : extract_marker_numberL (sanitizeL e.data) m = [] := congrArg String.data he
  exact lookup_markersOf_of_entry_none _ _ _ m (markerEntry_none_of_empty _ _ m hT hE)

/-- Witness for C10 at a concrete input with no marker-adjacent digits. -/
theorem C10_witness :
    (markersOf markerGlyphs (sanitizeL "اب".data) (sanitizeL "".data)).lookup 'م' = none :=
  C10_marker_requires_adjacent_match "اب" "" 'م' (by decide) (by decide)

/-- C9 counterexample: the reconciled address string depends on the glyph
check order, because the serialization follows the dict's insertion order —
checking `ق` before `م` swaps the two marker segments in the output. -/
theorem C9_counterexample :
    chooseAddressOrd ['ق', 'م', 'ك'] "م 2 ق 3" "" ≠
      chooseAddressOrd ['م', 'ق', 'ك'] "م 2 ق 3" "" := by
  decide

theorem lookup_markersOf_nodup (order : List Char) (aT aE : List Char) (m : Char)
    (hnd : order.Nodup) :
    (markersOf order aT aE).lookup m =
      (if m ∈ order then markerEntry aT aE m else none) := by
  induction order with
  | nil => simp [markersOf]
  | cons m' rest ih =>
    have hnd' : rest.Nodup := (List.nodup_cons.mp hnd).2
    have hnm : m' ∉ rest := (List.nodup_cons.mp hnd).1
    by_cases hm : m = m'
    · subst hm
      rw [if_pos (by simp)]
      cases hm' : markerEntry aT aE m with
      | none =>
        simp only [markersOf_cons, hm']
        rw [ih hnd', if_neg hnm]
      | some v =>
        simp only [markersOf_cons, hm']
        exact lookup_cons_self m v _
    · have hmem : (m ∈ m' :: rest) ↔ (m ∈ rest) := by
        constructor
        · intro hx
          rcases List.mem_cons.mp hx with h1 | h1
          · exact absurd h1 hm
          · exact h1
        · exact fun hx => List.mem_cons_of_mem _ hx
      have hstep : (markersOf (m' :: rest) aT aE).lookup m =
          (markersOf rest aT aE).lookup m := by
        cases hm' : markerEntry aT aE m' with
        | none => simp only [markersOf_cons, hm']
        | some v =>
          simp only [markersOf_cons, hm']
          exact lookup_cons_ne m m' v _ hm
      rw [hstep, ih hnd']
      by_cases hx : m ∈ rest
      · rw [if_pos hx, if_pos (hmem.mpr hx)]
      · rw [if_neg hx, if_neg (fun hy => hx (hmem.mp hy))]

/-- C9 amended: the marker-to-number mapping is order-independent — for any
permutation of the three glyphs, each glyph's recorded number is unchanged —
but the serialized address built from the insertion-ordered dict is not
(see the counterexample). -/
theorem C9_amended_marker_map_order_independent (order : List Char) (t e : String)
    (m : Char) (hperm : order.Perm markerGlyphs) :
    (markersOf order (sanitizeL t.data) (sanitizeL e.data)).lookup m =
      (markersOf markerGlyphs (sanitizeL t.data) (sanitizeL e.data)).lookup m := by
  have hnd : order.Nodup := hperm.nodup_iff.mpr (by decide)
  rw [lookup_markersOf_nodup order _ _ m hnd,
    lookup_markersOf_nodup markerGlyphs _ _ m (by decide)]
  by_cases hm : m ∈ markerGlyphs
  · rw [if_pos (hperm.mem_iff.mpr hm), if_pos hm]
  · rw [if_neg (fun hx => hm (hperm.mem_iff.mp hx)), if_neg hm]

/-- Witness for amended C9 at the counterexample's inputs. -/
theorem C9_amended_witness :
    (markersOf ['ق', 'م', 'ك'] (sanitizeL "م 2 ق 3".data) (sanitizeL "".data)).lookup 'م' =
      (markersOf ['م', 'ق', 'ك'] (sanitizeL "م 2 ق 3".data) (sanitizeL "".data)).lookup 'م' :=
  C9_amended_marker_map_order_independent ['ق', 'م', 'ك'] "م 2 ق 3" "" 'م'
    (List.Perm.swap 'م' 'ق' ['ك'])

/-- C3 counterexample: the locality of the reconciled address is not the top
pooled-ranking candidate.  With no markers in either source the entire
`choose_address` output is its locality part; on ("جناب", "سسس ببب") the
pooled ranking (implemented by `pick_locality`, which `choose_address` never
calls) selects "سسس ببب", while `choose_address` returns "جناب سسس ببب". -/
theorem C3_counterexample :
    choose_address "جناب" "سسس ببب" = "جناب سسس ببب" ∧
    pick_locality "جناب" "سسس ببب" = "سسس ببب" ∧
    choose_address "جناب" "سسس ببب" ≠ pick_locality "جناب" "سسس ببب" := by
  exact ⟨by decide, by decide, by decide⟩

/-- The locality composition `choose_address` actually performs: city =
`extract_city_district` of the letter-richer source (ties to the first),
area = `extract_area_name` of the letter-richer source, serialized as
"area city" with the empty-marker fallbacks and the final cleanup passes. -/
def localityComposed (aT aE : String) : String :=
  let addrT := sanitizeL aT.data
  let addrE := sanitizeL aE.data
  let cityT := extract_city_districtL addrT
  let cityE := extract_city_districtL addrE
  let city := if countArabicL cityE ≤ countArabicL cityT then cityT else cityE
  let areaT := extract_area_nameL addrT city
  let areaE := extract_area_nameL addrE city
  let area := if countArabicL areaE ≤ countArabicL areaT then areaT else areaE
  let r0 := pyStrip (area ++ [' '] ++ city)
  let result := if ¬r0.isEmpty then r0 else if ¬addrE.isEmpty then addrE else addrT
  ⟨collapseWs ((result.filter (fun c => ¬isEnglishLetter c)).map sanStep3)⟩

/-- C3 amended: `choose_address` does not rank pooled locality candidates
(that rule lives in the never-called `pick_locality`); its locality is the
area/city composition of `localityComposed`.  Whenever no marker records a
number, the reconciled address is exactly that composition. -/
theorem C3_amended_locality_is_area_city (aT aE : String)
    (hne : ¬((sanitizeL aT.data).isEmpty = true ∧ (sanitizeL aE.data).isEmpty = true))
    (hm : ∀ m ∈ markerGlyphs, extract_marker_numberL (sanitizeL aT.data) m = [] ∧
      extract_marker_numberL (sanitizeL aE.data) m = []) :
    choose_address aT aE = localityComposed aT aE := by
  have hmap := markersOf_eq_nil markerGlyphs (sanitizeL aT.data) (sanitizeL aE.data) hm
  unfold choose_address chooseAddressOrd localityComposed
  rw [if_neg hne, hmap]
  rfl

/-- Witness for amended C3 at the counterexample's inputs. -/
theorem C3_amended_witness :
    choose_address "جناب" "سسس ببب" = localityComposed "جناب" "سسس ببب" :=
  C3_amended_locality_is_area_city "جناب" "سسس ببب" (by decide) (by decide)

/- ### Orchestrator: the post-OCR field assembly of `process_image`
(`app/core.py` 32–188).  The image preprocessing and the two OCR engines are
the spec's external collaborators; their outputs enter as `text` (Tesseract,
line-joined), `d` (EasyOCR fragment list) and `oid` (identifier-region read). -/

/-- A value of the orchestrator's Python dict. -/
inductive PyVal : Type
  | str : String → PyVal
  | int : Nat → PyVal
deriving DecidableEq

/-- The record dict: insertion-ordered key/value pairs. -/
def Record : Type := List (String × PyVal)

instance : DecidableEq Record := by
  unfold Record
  infer_instance

/-- `data[key] = v`: update in place (all keys used pre-exist). -/
def setKey : Record → String → PyVal → Record
  | [], k, v => [(k, v)]
  | (k', v') :: rest, k, v =>
    if k' = k then (k', v) :: rest else (k', v') :: setKey rest k v

/-- Read a string-valued field. -/
def getStr (r : Record) (k : String) : String :=
  match List.lookup k r with
  | some (.str s) => s
  | _ => ""

/-- The dict initialized at the top of `process_image` — note the source's
literal keys `"first name"` and `"seconed name"`. -/
def initRecord : Record :=
  [("first name", .str "0"), ("seconed name", .str "0"), ("address", .str "0"),
   ("id", .str "0"), ("birthdate", .str "0"), ("error", .int 0)]

def pyStripStr (s : String) : String := ⟨pyStrip s.data⟩

/-- `s.split()`. -/
def pySplitStr (s : String) : List String :=
  (splitWords s.data).map (fun w => (⟨w⟩ : String))

/-- `max(xs, key=len)`: first string of maximal length. -/
def pyMaxByLen : List String → String
  | [] => ""
  | x :: xs => xs.foldl (fun acc y => if acc.length < y.length then y else acc) x

/-- The identifier-read selection (one string → itself, none → "0",
several → the longest). -/
def idFromOid (oid : List String) : String :=
  match oid with
  | [x] => x
  | [] => "0"
  | _ => pyMaxByLen oid

/-- The name-cleaning loops: remove `ARABIC_DIGITS` and `PUN` characters. -/
def cleanNameChars (s : String) : String :=
  ⟨s.data.filter (fun c => ¬(isArabicIndicDigit c = true ∨ isAsciiPunct c = true))⟩

/-- `replace("[","").replace("]","").replace("'","")`. -/
def stripBrackets (s : String) : String :=
  ⟨s.data.filter (fun c => ¬(c = '[' ∨ c = ']' ∨ c = '\''))⟩

/-- `str.split(sep)` for a one-character separator (every occurrence splits,
boundary empties kept; `"".split(c) == ['']`). -/
def splitCharAux (sep : Char) : List Char → List Char → List String
  | [], acc => [⟨acc.reverse⟩]
  | c :: cs, acc =>
    if c = sep then (⟨acc.reverse⟩ : String) :: splitCharAux sep cs []
    else splitCharAux sep cs (c :: acc)

def pySplitChar (sep : Char) (s : String) : List String := splitCharAux sep s.data []

/-- The name/address/id assembly of the two heuristic branches of
`process_image` (core.py 86–156), parametrized by the address
reconciliation `addrFn`. -/
def assembleFields (addrFn : String → String → String) (text : String)
    (d oid : List String) : Record :=
  let splited := pySplitChar '\n' text
  if splited.length = 8 then
    let firstname := if 0 < splited.length then splited.getD 0 "0" else "0"
    let secondname := if 2 < splited.length then splited.getD 2 "0" else "0"
    let addressT := if 6 < splited.length then
        splited.getD 4 "" ++ " " ++ splited.getD 6 "" else ""
    let addressE := if 2 < d.length then String.intercalate " " (d.drop 2)
      else String.intercalate " " d
    let dA := setKey (setKey (setKey initRecord "first name" (.str firstname))
      "seconed name" (.str secondname)) "address" (.str (addrFn addressT addressE))
    setKey dA "id" (.str (idFromOid oid))
  else
    let tLines := (splited.map pyStripStr).filter (fun x => x ≠ "")
    let addressT := if 2 < tLines.length then String.intercalate " " (tLines.drop 2)
      else ""
    let dB :=
      if d ≠ [] then
        let addressE := if 2 < d.length then String.intercalate " " (d.drop 2)
          else String.intercalate " " d
        setKey (setKey (setKey initRecord
          "first name" (.str (if 0 < d.length then d.getD 0 "0" else "0")))
          "seconed name" (.str (if 1 < d.length then d.getD 1 "0" else "0")))
          "address" (.str (addrFn addressT addressE))
      else initRecord
    if oid = [] ∧ d = [] then setKey dB "error" (.int 1)
    else setKey dB "id" (.str (idFromOid oid))

/-- The post-processing block of `process_image` (core.py 161–186): name
cleaning, bracket stripping, name-length error checks, identifier cleaning,
birth-date derivation. -/
def postProcess (currentYY : Nat) (r : Record) : Record :=
  let f1 := cleanNameChars (getStr r "first name")
  let s1 := cleanNameChars (getStr r "seconed name")
  let d2 := setKey (setKey r "first name" (.str f1)) "seconed name" (.str s1)
  let d4 := setKey d2 "address" (.str (stripBrackets (getStr d2 "address")))
  let d5 := if 3 < (pySplitStr f1).length then setKey d4 "error" (.int 1) else d4
  let d6 := if (pySplitStr s1).length ≤ 1 then setKey d5 "error" (.int 1) else d5
  let idInt := clean_id (getStr d6 "id")
  setKey (setKey d6 "id" (.int idInt)) "birthdate"
    (.str (extract_birthdate_from_id currentYY (toString idInt)))

/-- `process_image` from the OCR outputs on, parametrized by the address
reconciliation (the source instantiates it with
`remove_cross_line_duplicates ∘ choose_address`). -/
def processFieldsGen (addrFn : String → String → String) (currentYY : Nat)
    (text : String) (d oid : List String) : Record :=
  postProcess currentYY (assembleFields addrFn text d oid)

/-- The record `process_image` returns when no unexpected fault occurs. -/
def processFields (currentYY : Nat) (text : String) (d oid : List String) : Record :=
  processFieldsGen (fun a b => remove_cross_line_duplicates (choose_address a b))
    currentYY text d oid

/-- The names the orchestrator assembles, as a function of the OCR outputs
only (no dependence on address reconciliation). -/
def namesOf (text : String) (d : List String) : String × String :=
  let splited := pySplitChar '\n' text
  if splited.length = 8 then
    (if 0 < splited.length then splited.getD 0 "0" else "0",
     if 2 < splited.length then splited.getD 2 "0" else "0")
  else if d ≠ [] then
    (if 0 < d.length then d.getD 0 "0" else "0",
     if 1 < d.length then d.getD 1 "0" else "0")
  else ("0", "0")

/-- The final error flag as a function of the OCR outputs only. -/
def errorFlag (text : String) (d oid : List String) : Nat :=
  let f1 := cleanNameChars (namesOf text d).1
  let s1 := cleanNameChars (namesOf text d).2
  if (pySplitStr s1).length ≤ 1 then 1
  else if 3 < (pySplitStr f1).length then 1
  else if (pySplitChar '\n' text).length ≠ 8 ∧ oid = [] ∧ d = [] then 1 else 0

def sixKeys : List String :=
  ["first name", "seconed name", "address", "id", "birthdate", "error"]

/- Evaluation of `setKey`/`getStr` on the six-field record shape. -/

theorem setKey_lit_first (p1 p2 p3 p4 p5 p6 v : PyVal) :
    setKey [("first name", p1), ("seconed name", p2), ("address", p3), ("id", p4),
      ("birthdate", p5), ("error", p6)] "first name" v =
    [("first name", v), ("seconed name", p2), ("address", p3), ("id", p4),
      ("birthdate", p5), ("error", p6)] := by
  simp [setKey]

theorem setKey_lit_second (p1 p2 p3 p4 p5 p6 v : PyVal) :
    setKey [("first name", p1), ("seconed name", p2), ("address", p3), ("id", p4),
      ("birthdate", p5), ("error", p6)] "seconed name" v =
    [("first name", p1), ("seconed name", v), ("address", p3), ("id", p4),
      ("birthdate", p5), ("error", p6)] := by
  simp [setKey]

theorem setKey_lit_address (p1 p2 p3 p4 p5 p6 v : PyVal) :
    setKey [("first name", p1), ("seconed name", p2), ("address", p3), ("id", p4),
      ("birthdate", p5), ("error", p6)] "address" v =
    [("first name", p1), ("seconed name", p2), ("address", v), ("id", p4),
      ("birthdate", p5), ("error", p6)] := by
  simp [setKey]

theorem setKey_lit_id (p1 p2 p3 p4 p5 p6 v : PyVal) :
    setKey [("first name", p1), ("seconed name", p2), ("address", p3), ("id", p4),
      ("birthdate", p5), ("error", p6)] "id" v =
    [("first name", p1), ("seconed name", p2), ("address", p3), ("id", v),
      ("birthdate", p5), ("error", p6)] := by
  simp [setKey]

theorem setKey_lit_birthdate (p1 p2 p3 p4 p5 p6 v : PyVal) :
    setKey [("first name", p1), ("seconed name", p2), ("address", p3), ("id", p4),
      ("birthdate", p5), ("error", p6)] "birthdate" v =
    [("first name", p1), ("seconed name", p2), ("address", p3), ("id", p4),
      ("birthdate", v), ("error", p6)] := by
  simp [setKey]

theorem setKey_lit_error (p1 p2 p3 p4 p5 p6 v : PyVal) :
    setKey [("first name", p1), ("seconed name", p2), ("address", p3), ("id", p4),
      ("birthdate", p5), ("error", p6)] "error" v =
    [("first name", p1), ("seconed name", p2), ("address", p3), ("id", p4),
      ("birthdate", p5), ("error", v)] := by
  simp [setKey]

theorem getStr_lit_first (s : String) (p2 p3 p4 p5 p6 : PyVal) :
    getStr [("first name", PyVal.str s), ("seconed name", p2), ("address", p3),
      ("id", p4), ("birthdate", p5), ("error", p6)] "first name" = s := by
  simp [getStr, List.lookup]

theorem getStr_lit_second (s : String) (p1 p3 p4 p5 p6 : PyVal) :
    getStr [("first name", p1), ("seconed name", PyVal.str s), ("address", p3),
      ("id", p4), ("birthdate", p5), ("error", p6)] "seconed name" = s := by
  simp [getStr, List.lookup]

theorem getStr_lit_address (s : String) (p1 p2 p4 p5 p6 : PyVal) :
    getStr [("first name", p1), ("seconed name", p2), ("address", PyVal.str s),
      ("id", p4), ("birthdate", p5), ("error", p6)] "address" = s := by
  simp [getStr, List.lookup]

theorem getStr_lit_id (s : String) (p1 p2 p3 p5 p6 : PyVal) :
    getStr [("first name", p1), ("seconed name", p2), ("address", p3),
      ("id", PyVal.str s), ("birthdate", p5), ("error", p6)] "id" = s := by
  simp [getStr, List.lookup]

theorem lookup_lit_error (p1 p2 p3 p4 p5 p6 : PyVal) :
    List.lookup "error" [("first name", p1), ("seconed name", p2), ("address", p3),
      ("id", p4), ("birthdate", p5), ("error", p6)] = some p6 := by
  simp [List.lookup]

/-- `postProcess` evaluated on the six-field record shape. -/
theorem postProcess_eval (cy : Nat) (fn sn addr idv : String) (bd : PyVal) (er : Nat) :
    postProcess cy [("first name", .str fn), ("seconed name", .str sn),
      ("address", .str addr), ("id", .str idv), ("birthdate", bd), ("error", .int er)] =
    [("first name", .str (cleanNameChars fn)),
     ("seconed name", .str (cleanNameChars sn)),
     ("address", .str (stripBrackets addr)),
     ("id", .int (clean_id idv)),
     ("birthdate", .str (extract_birthdate_from_id cy (toString (clean_id idv)))),
     ("error", .int (if (pySplitStr (cleanNameChars sn)).length ≤ 1 then 1
        else if 3 < (pySplitStr (cleanNameChars fn)).length then 1 else er))] := by
  unfold postProcess
  simp only [getStr_lit_first, getStr_lit_second, setKey_lit_first, setKey_lit_second,
    getStr_lit_address, setKey_lit_address, getStr_lit_id, setKey_lit_id,
    setKey_lit_birthdate, setKey_lit_error]
  by_cases h5 : 3 < (pySplitStr (cleanNameChars fn)).length <;>
    by_cases h6 : (pySplitStr (cleanNameChars sn)).length ≤ 1 <;>
      simp only [h5, h6, if_true, if_false, setKey_lit_error, getStr_lit_id,
        setKey_lit_id, setKey_lit_birthdate]

/-- `assembleFields` always produces the six-field record shape, with names
and error flag independent of the address reconciliation. -/
theorem assembleFields_eval (f : String → String → String) (t : String)
    (d oid : List String) :
    ∃ addr : String,
      assembleFields f t d oid =
        [("first name", .str (namesOf t d).1), ("seconed name", .str (namesOf t d).2),
         ("address", .str addr),
         ("id", .str (if (pySplitChar '\n' t).length ≠ 8 ∧ oid = [] ∧ d = []
            then "0" else idFromOid oid)),
         ("birthdate", .str "0"),
         ("error", .int (if (pySplitChar '\n' t).length ≠ 8 ∧ oid = [] ∧ d = []
            then 1 else 0))] := by
  unfold assembleFields namesOf initRecord
  by_cases h8 : (pySplitChar '\n' t).length = 8
  · refine ⟨f (if 6 < (pySplitChar '\n' t).length then
        (pySplitChar '\n' t).getD 4 "" ++ " " ++ (pySplitChar '\n' t).getD 6 "" else "")
      (if 2 < d.length then String.intercalate " " (d.drop 2)
        else String.intercalate " " d), ?_⟩
    simp [h8, setKey_lit_first, setKey_lit_second, setKey_lit_address, setKey_lit_id]
  · by_cases hd : d = []
    · by_cases ho : oid = []
      · refine ⟨"0", ?_⟩
        simp [h8, hd, ho, setKey_lit_error]
      · refine ⟨"0", ?_⟩
        simp [h8, hd, ho, setKey_lit_id]
    · refine ⟨f (if 2 < (((pySplitChar '\n' t).map pyStripStr).filter
          (fun x => x ≠ "")).length then
          String.intercalate " " ((((pySplitChar '\n' t).map pyStripStr).filter
            (fun x => x ≠ "")).drop 2) else "")
        (if 2 < d.length then String.intercalate " " (d.drop 2)
          else String.intercalate " " d), ?_⟩
      simp [h8, hd, setKey_lit_first, setKey_lit_second, setKey_lit_address,
        setKey_lit_id]

theorem lookup_lit_id (p1 p2 p3 p4 p5 p6 : PyVal) :
    List.lookup "id" [("first name", p1), ("seconed name", p2), ("address", p3),
      ("id", p4), ("birthdate", p5), ("error", p6)] = some p4 := by
  simp [List.lookup]

theorem lookup_lit_birthdate (p1 p2 p3 p4 p5 p6 : PyVal) :
    List.lookup "birthdate" [("first name", p1), ("seconed name", p2), ("address", p3),
      ("id", p4), ("birthdate", p5), ("error", p6)] = some p5 := by
  simp [List.lookup]

theorem extract_birthdate_shape (cy : Nat) (s : String) :
    extract_birthdate_from_id cy s = "0" ∨
      ∃ y mo dy : Nat, extract_birthdate_from_id cy s = isoFormat y mo dy := by
  simp only [extract_birthdate_from_id]
  repeat' split
  all_goals first
    | exact Or.inl rfl
    | exact Or.inr ⟨_, _, _, rfl⟩

/-- C8: reconciling two empty sources yields the sentinel "0", and the
orchestrator's error flag is a function of the OCR outputs alone — it is the
same for every address-reconciliation function, so the sentinel cannot set
it. -/
theorem C8_sentinel_and_error_independent :
    choose_address "" "" = "0" ∧
    ∀ (addrFn : String → String → String) (cy : Nat) (t : String) (d oid : List String),
      List.lookup "error" (processFieldsGen addrFn cy t d oid) =
        some (.int (errorFlag t d oid)) := by
  constructor
  · decide
  · intro f cy t d oid
    obtain ⟨addr, heq⟩ := assembleFields_eval f t d oid
    unfold processFieldsGen
    rw [heq, postProcess_eval, lookup_lit_error]
    rfl

/-- C4 counterexample: the record's keys are the source's literal
`"first name"` and `"seconed name"` (with its spelling), not the claimed
`first_name`/`second_name`. -/
theorem C4_counterexample :
    (processFields 26 "" [] []).map Prod.fst =
      ["first name", "seconed name", "address", "id", "birthdate", "error"] ∧
    List.lookup "first_name" (processFields 26 "" [] []) = none ∧
    List.lookup "second_name" (processFields 26 "" [] []) = none := by
  exact ⟨by decide, by decide, by decide⟩

/-- C4 amended: the record returned on the non-fault path is a flat mapping
with exactly the keys "first name", "seconed name", "address", "id",
"birthdate", "error"; the id is an integer, the birthdate is an ISO date
string or "0", and the error flag is 0 or 1. -/
theorem C4_amended_record_shape (cy : Nat) (t : String) (d oid : List String) :
    (processFields cy t d oid).map Prod.fst =
      ["first name", "seconed name", "address", "id", "birthdate", "error"] ∧
    (List.lookup "error" (processFields cy t d oid) = some (.int 0) ∨
      List.lookup "error" (processFields cy t d oid) = some (.int 1)) ∧
    (∃ n : Nat, List.lookup "id" (processFields cy t d oid) = some (.int n)) ∧
    (List.lookup "birthdate" (processFields cy t d oid) = some (.str "0") ∨
      ∃ y mo dy : Nat, List.lookup "birthdate" (processFields cy t d oid) =
        some (.str (isoFormat y mo dy))) := by
  obtain ⟨addr, heq⟩ := assembleFields_eval
    (fun a b => remove_cross_line_duplicates (choose_address a b)) t d oid
  unfold processFields processFieldsGen
  rw [heq, postProcess_eval]
  refine ⟨rfl, ?_, ?_, ?_⟩
  · rw [lookup_lit_error]
    split_ifs <;> first | exact Or.inr rfl | exact Or.inl rfl
  · exact ⟨_, lookup_lit_id _ _ _ _ _ _⟩
  · rw [lookup_lit_birthdate]
    rcases extract_birthdate_shape cy (toString (clean_id
        (if (pySplitChar '\n' t).length ≠ 8 ∧ oid = [] ∧ d = [] then "0"
         else idFromOid oid))) with h | ⟨y, mo, dy, h⟩
    · exact Or.inl (by rw [h])
    · exact Or.inr ⟨y, mo, dy, by rw [h]⟩

end EgyIdOcr
